import Mathlib

/-!
# Registry: a shallow embedding of `registry.h`, `registry.cc` and `type_traits.h`

The C++ object graph (registries and elements linked by raw pointers and owned through
`std::unique_ptr`) is embedded as an explicit heap: an object is a cell of a list and a
pointer is the index of its cell.  Every operation takes the heap and the `this` pointer and
returns the new heap with the C++ return value.  The result is `none` exactly where the C++
program would dereference a pointer to no live object, read an object through a type whose
representation is not modelled, or not return.

`std::string` is `String`; the algorithms work on its list of characters.  `float` and
`double` values are kept as their bit patterns, since the code only stores and copies them.
-/

namespace registry

/-! ## `type_traits.h` -/

/-- The enumeration `TypeEnum` of `type_traits.h`. -/
inductive TypeEnum where
  | kInt32
  | kUnsignedInt32
  | kInt64
  | kUnsignedInt64
  | kBoolean
  | kChar
  | kString
  | kFloat
  | kDouble
  deriving DecidableEq, Repr

/-- The nine C++ types for which `DataTypeTrait` is specialised. -/
inductive ScalarType where
  | int32_t
  | uint32_t
  | int64_t
  | uint64_t
  | bool
  | char
  | string
  | float
  | double
  deriving DecidableEq, Repr

/-- A value of one of the nine scalar types.  Integers are mathematical integers in the
range of their width; `float` and `double` carry their 32 and 64 bit patterns. -/
inductive Value where
  | int32 (v : Int)
  | uint32 (v : Nat)
  | int64 (v : Int)
  | uint64 (v : Nat)
  | bool (v : Bool)
  | char (v : Char)
  | string (v : String)
  | float (bits : Nat)
  | double (bits : Nat)
  deriving DecidableEq, Repr

/-- The static C++ type of a value. -/
def Value.type : Value → ScalarType
  | .int32 _ => .int32_t
  | .uint32 _ => .uint32_t
  | .int64 _ => .int64_t
  | .uint64 _ => .uint64_t
  | .bool _ => .bool
  | .char _ => .char
  | .string _ => .string
  | .float _ => .float
  | .double _ => .double

/-- The member `DataTypeTrait<T>::type`, specialisation by specialisation. -/
def DataTypeTrait.type : ScalarType → TypeEnum
  | .int32_t => .kFloat
  | .uint32_t => .kUnsignedInt32
  | .int64_t => .kInt64
  | .uint64_t => .kUnsignedInt64
  | .bool => .kBoolean
  | .char => .kChar
  | .string => .kString
  | .float => .kFloat
  | .double => .kDouble

/-- The member `DataTypeTrait<T>::default_value`; the specialisations for `char` and
`std::string` declare none. -/
def DataTypeTrait.default_value : ScalarType → Option Value
  | .int32_t => some (.int32 0)
  | .uint32_t => some (.uint32 0)
  | .int64_t => some (.int64 0)
  | .uint64_t => some (.uint64 0)
  | .bool => some (.bool false)
  | .char => none
  | .string => none
  | .float => some (.float 0)
  | .double => some (.double 0)

/-- Modelled from the spec: `registry.h` names the trait `TypeTrait<T>`, which no source
file declares; the spec has one type tag trait, the table of `type_traits.h`. -/
def TypeTrait.type (T : ScalarType) : TypeEnum := DataTypeTrait.type T

/-- Modelled from the spec: the default value of `TypeTrait<T>`, the one of the table of
`type_traits.h`. -/
def TypeTrait.default_value (T : ScalarType) : Option Value := DataTypeTrait.default_value T

/-! ## `common/error_or.h` -/

/-- Modelled from the spec: the error kinds of `common::Error` that the registry returns;
`common/error_or.h` is not among the sources. -/
inductive Error where
  | kNotFound
  | kUnavailable
  deriving DecidableEq, Repr

/-- Modelled from the spec: `common::ErrorOr<T>` holds a value or an error. -/
abbrev ErrorOr (α : Type) := Except Error α

deriving instance DecidableEq for Except

/-- The member `ErrorOr::HasValue`. -/
def ErrorOr.HasValue {α : Type} : ErrorOr α → Bool
  | .ok _ => true
  | .error _ => false

/-! ## `std::unordered_map<std::string, V>` -/

/-- An unordered map with string keys, as the list of its entries. -/
abbrev UnorderedMap (V : Type) := List (String × V)

/-- The member `find`: the mapped value of the entry with this key, `none` for `end()`. -/
def UnorderedMap.find {V : Type} : UnorderedMap V → String → Option V
  | [], _ => none
  | (k, v) :: rest, key => if k = key then some v else UnorderedMap.find rest key

/-- The member `emplace`: when the key is present the map is unchanged and the result is the
mapped value already there with `false`; otherwise the entry is inserted and the result is
the new mapped value with `true`. -/
def UnorderedMap.emplace {V : Type} (m : UnorderedMap V) (key : String) (value : V) :
    UnorderedMap V × V × Bool :=
  match UnorderedMap.find m key with
  | some present => (m, present, false)
  | none => (m ++ [(key, value)], value, true)

/-! ## `registry.h`: data -/

namespace internal

/-- The constant `kRegistryReservedChars`. -/
def kRegistryReservedChars : String := "<>()\x7b\x7d[]#$!@%^&|~\x60;:.,/*-+= "

/-- The constant `kNamespaceCharacter`. -/
def kNamespaceCharacter : Char := '.'

/-- The function `RemoveReservedCharacters`: `std::remove_if` with the predicate
"`std::find` meets the character in `reserved_chars`", then `erase`. -/
def RemoveReservedCharacters (name : String) (reserved_chars : String) : String :=
  String.mk (name.data.filter (fun string_char => !(reserved_chars.data.elem string_char)))

end internal

/-- The sanitized form of a name: what the constructors of `Registry` and `Element` store. -/
def sanitize (name : String) : String :=
  internal.RemoveReservedCharacters name internal.kRegistryReservedChars

/-- A pointer to a `Registry`: the index of its cell in the heap. -/
abbrev RegistryPtr := Nat

/-- A pointer to a `Registry::Element`: the index of its cell in the heap. -/
abbrev ElementPtr := Nat

/-- The class `Registry::Element` with the member `value_` of its subclass
`ElementTemplate<T>`; the dynamic class is `ElementTemplate<value_.type>`. -/
structure Element where
  name_ : String
  type_ : TypeEnum
  registry_ : Option RegistryPtr
  value_ : Value
  deriving DecidableEq, Repr

/-- The class `Registry`. -/
structure Registry where
  name_ : String
  parent_ : Option RegistryPtr
  child_registries_ : UnorderedMap RegistryPtr
  elements_ : UnorderedMap ElementPtr
  deriving DecidableEq, Repr

/-- The live objects: the cell `i` of each list is the object at address `i`. -/
structure Heap where
  registries : List Registry
  elements : List Element
  deriving DecidableEq, Repr

/-! ## `Registry::Element` -/

/-- The constructor `ElementTemplate<T>(name, initial_value)`. -/
def ElementTemplate.mk (T : ScalarType) (name : String) (initial_value : Value) : Element :=
  { name_ := internal.RemoveReservedCharacters name internal.kRegistryReservedChars
    type_ := TypeTrait.type T
    registry_ := none
    value_ := initial_value }

/-- The constructor `ElementTemplate<T>(name)`, which takes `TypeTrait<T>::default_value`. -/
def ElementTemplate.mkDefault (T : ScalarType) (name : String) : Option Element :=
  (TypeTrait.default_value T).map (fun initial_value => ElementTemplate.mk T name initial_value)

/-- The accessor `Element::type`. -/
def Element.type (e : Element) : TypeEnum := e.type_

/-- The accessor `Element::name`. -/
def Element.name (e : Element) : String := e.name_

/-- The accessor `ElementTemplate<T>::value`. -/
def Element.value (e : Element) : Value := e.value_

/-- Two's complement reading of a 32 bit pattern. -/
def toSigned32 (bits : Nat) : Int :=
  if bits % 2 ^ 32 < 2 ^ 31 then (bits % 2 ^ 32 : Nat) else (bits % 2 ^ 32 : Nat) - 2 ^ 32

/-- The 32 bit pattern of a signed integer. -/
def toBits32 (v : Int) : Nat := (v % 2 ^ 32).toNat

/-- The read `*(reinterpret_cast<T const*>(p))` where `p` points at the object `v`.  An
object read through its own type gives its value.  `int32_t` and `float` are both four
bytes wide and the read copies the bit pattern.  No other pair is modelled. -/
def reinterpretRead (T : ScalarType) (v : Value) : Option Value :=
  if v.type = T then some v
  else
    match T, v with
    | .int32_t, .float bits => some (.int32 (toSigned32 bits))
    | .float, .int32 i => some (.float (toBits32 i))
    | _, _ => none

/-- The protected virtual `ElementTemplate<U>::Assign(void const* other)`, `U` being the type
of the stored value: `value_ = *(reinterpret_cast<U const*>(other))`. -/
def Element.AssignRaw (e : Element) (other : Value) : Option Element :=
  (reinterpretRead e.value_.type other).map (fun v => { e with value_ := v })

/-- The protected virtual `ElementTemplate<U>::Extract()`: the address of `value_`, here the
object stored there. -/
def Element.ExtractRaw (e : Element) : Value := e.value_

/-- The template `Element::Assign<T>(const T& other)`, `T` being the type of `other`.
Returns the flag and the element afterwards. -/
def Element.Assign (e : Element) (other : Value) : Option (Bool × Element) :=
  if TypeTrait.type other.type ≠ e.type_ then some (false, e)
  else (e.AssignRaw other).map (fun e' => (true, e'))

/-- The template `Element::Extract<T>(T* other)`, `T` being the type of the object `other`
points at.  Returns the flag and that object afterwards. -/
def Element.Extract (e : Element) (other : Value) : Option (Bool × Value) :=
  if TypeTrait.type other.type ≠ e.type_ then some (false, other)
  else (reinterpretRead other.type e.ExtractRaw).map (fun v => (true, v))

/-! ## `Registry` -/

/-- The constructor `Registry(name)`. -/
def Registry.new (name : String) : Registry :=
  { name_ := internal.RemoveReservedCharacters name internal.kRegistryReservedChars
    parent_ := none
    child_registries_ := []
    elements_ := [] }

/-- The accessor `Registry::name`. -/
def Registry.name (r : Registry) : String := r.name_

/-- The object a registry pointer points at, `none` when there is no such live object. -/
def Heap.registry (h : Heap) (p : RegistryPtr) : Option Registry := h.registries[p]?

/-- The object an element pointer points at, `none` when there is no such live object. -/
def Heap.element (h : Heap) (p : ElementPtr) : Option Element := h.elements[p]?

/-- The heap holding a freshly constructed root registry and nothing else; the root is at
address `0`. -/
def Heap.root (name : String) : Heap :=
  { registries := [Registry.new name], elements := [] }

/-- The chain of `parent_` pointers walked by `Registry::FullName`, at most `fuel` nodes. -/
def FullNameWalk (h : Heap) : Nat → RegistryPtr → Option String
  | 0, _ => none
  | fuel + 1, this =>
    match h.registry this with
    | none => none
    | some self =>
      match self.parent_ with
      | none => some self.name
      | some parent => (FullNameWalk h fuel parent).map (fun full => full ++ "." ++ self.name)

/-- The method `Registry::FullName`.  A chain of parents without a cycle has at most as many
nodes as the heap has registries, so the walk is given that many steps. -/
def Registry.FullName (h : Heap) (this : RegistryPtr) : Option String :=
  FullNameWalk h h.registries.length this

/-- The method `Registry::Element::FullName`. -/
def Element.FullName (h : Heap) (e : Element) : Option String :=
  match e.registry_ with
  | none => some e.name
  | some registry => (Registry.FullName h registry).map (fun full => full ++ "." ++ e.name)

/-- The method `Registry::FindElement`. -/
def FindElement (h : Heap) (this : RegistryPtr) (name : String) :
    Option (ErrorOr ElementPtr) :=
  match h.registry this with
  | none => none
  | some self =>
    match self.elements_.find name with
    | some it => some (.ok it)
    | none => some (.error .kNotFound)

/-- The template `Registry::FindElementType<ElementTemplate<T>>`. -/
def FindElementType (T : ScalarType) (h : Heap) (this : RegistryPtr) (name : String) :
    Option (ErrorOr ElementPtr) :=
  match FindElement h this name with
  | none => none
  | some (.error e) => some (.error e)
  | some (.ok element) =>
    match h.element element with
    | none => none
    | some object =>
      if object.type ≠ DataTypeTrait.type T then some (.error .kNotFound)
      else some (.ok element)

/-- The template `Registry::AddElementType`, given the element that `std::make_unique`
constructed from the arguments.  The element takes the next free address; when `emplace`
does not insert, the `unique_ptr` destroys it again and the heap is as before. -/
def AddElementType (h : Heap) (this : RegistryPtr) (element : Element) :
    Option (Heap × ErrorOr ElementPtr) :=
  match h.registry this with
  | none => none
  | some self =>
    match self.elements_.emplace element.name h.elements.length with
    | (elements, it, true) =>
      some ({ registries := h.registries.set this { self with elements_ := elements }
              elements := (h.elements ++ [element]).modify
                (fun object => { object with registry_ := some this }) it },
            .ok it)
    | (_, _, false) => some (h, .error .kUnavailable)

/-- The method `Registry::FindChildRegistry`. -/
def FindChildRegistry (h : Heap) (this : RegistryPtr) (name : String) :
    Option (ErrorOr RegistryPtr) :=
  match h.registry this with
  | none => none
  | some self =>
    match self.child_registries_.find name with
    | some it => some (.ok it)
    | none => some (.error .kNotFound)

/-- The method `Registry::AddChildRegistry`.  The child takes the next free address; when
`emplace` does not insert, the `unique_ptr` destroys it again and the heap is as before. -/
def AddChildRegistry (h : Heap) (this : RegistryPtr) (name : String) :
    Option (Heap × ErrorOr RegistryPtr) :=
  match h.registry this with
  | none => none
  | some self =>
    let child := Registry.new name
    match self.child_registries_.emplace child.name h.registries.length with
    | (children, it, true) =>
      some ({ registries :=
                ((h.registries.set this { self with child_registries_ := children }) ++
                  [child]).modify (fun object => { object with parent_ := some this }) it
              elements := h.elements },
            .ok it)
    | (_, _, false) => some (h, .error .kUnavailable)

/-- The call `std::find(s.cbegin(), s.cend(), c)`: the characters before the first `c`, and
the characters from it on (none when the result is `s.cend()`). -/
def stdFind (s : List Char) (c : Char) : List Char × List Char :=
  (s.takeWhile (fun x => x != c), s.dropWhile (fun x => x != c))

set_option linter.unusedVariables false in
/-- The method `Registry::FindElementByExtendedName`. -/
def FindElementByExtendedName (h : Heap) (this : RegistryPtr) (search_name : String) :
    Option (ErrorOr ElementPtr) :=
  match hfind : stdFind search_name.data internal.kNamespaceCharacter with
  | (_, []) => FindElement h this search_name
  | (registry_name, _ :: rest) =>
    match h.registry this with
    | none => none
    | some self =>
      if String.mk registry_name = self.name then
        FindElementByExtendedName h this (String.mk rest)
      else
        match FindChildRegistry h this (String.mk registry_name) with
        | none => none
        | some (.error _) => some (.error .kNotFound)
        | some (.ok child_registry) =>
          FindElementByExtendedName h child_registry (String.mk rest)
termination_by search_name.length
decreasing_by
  all_goals
    have hlen := (List.dropWhile_sublist (l := search_name.data)
      (fun x => x != internal.kNamespaceCharacter)).length_le
    have hsnd := congrArg Prod.snd hfind
    simp only [stdFind] at hsnd
    rw [hsnd, List.length_cons] at hlen
    show rest.length < search_name.data.length
    omega

/-- The method `Registry::FindOrAddChildRegistry`. -/
def FindOrAddChildRegistry (h : Heap) (this : RegistryPtr) (name : String) :
    Option (Heap × RegistryPtr) :=
  match h.registry this with
  | none => none
  | some self =>
    match self.child_registries_.find name with
    | some it => some (h, it)
    | none =>
      match self.child_registries_.emplace name h.registries.length with
      | (children, it, _) =>
        some ({ registries :=
                  (h.registries.set this { self with child_registries_ := children }) ++
                    [Registry.new name]
                elements := h.elements },
              it)

/-- The method `Registry::FindInt32`. -/
def FindInt32 (h : Heap) (this : RegistryPtr) (name : String) : Option (ErrorOr ElementPtr) :=
  FindElementType .int32_t h this name

/-- The method `Registry::AddInt32`. -/
def AddInt32 (h : Heap) (this : RegistryPtr) (name : String) :
    Option (Heap × ErrorOr ElementPtr) :=
  (ElementTemplate.mkDefault .int32_t name).bind (AddElementType h this)

/-- The method `Registry::FindUnsignedInt32`. -/
def FindUnsignedInt32 (h : Heap) (this : RegistryPtr) (name : String) :
    Option (ErrorOr ElementPtr) :=
  FindElementType .uint32_t h this name

/-- The method `Registry::AddUnsignedInt32`. -/
def AddUnsignedInt32 (h : Heap) (this : RegistryPtr) (name : String) :
    Option (Heap × ErrorOr ElementPtr) :=
  (ElementTemplate.mkDefault .uint32_t name).bind (AddElementType h this)

/-- The method `Registry::FindInt64`. -/
def FindInt64 (h : Heap) (this : RegistryPtr) (name : String) : Option (ErrorOr ElementPtr) :=
  FindElementType .int64_t h this name

/-- The method `Registry::AddInt64`. -/
def AddInt64 (h : Heap) (this : RegistryPtr) (name : String) :
    Option (Heap × ErrorOr ElementPtr) :=
  (ElementTemplate.mkDefault .int64_t name).bind (AddElementType h this)

/-- The method `Registry::FindUnsignedInt64`. -/
def FindUnsignedInt64 (h : Heap) (this : RegistryPtr) (name : String) :
    Option (ErrorOr ElementPtr) :=
  FindElementType .uint64_t h this name

/-- The method `Registry::AddUnsignedInt64`. -/
def AddUnsignedInt64 (h : Heap) (this : RegistryPtr) (name : String) :
    Option (Heap × ErrorOr ElementPtr) :=
  (ElementTemplate.mkDefault .uint64_t name).bind (AddElementType h this)

/-- The method `Registry::FindBoolean`. -/
def FindBoolean (h : Heap) (this : RegistryPtr) (name : String) :
    Option (ErrorOr ElementPtr) :=
  FindElementType .bool h this name

/-- The method `Registry::AddBoolean`. -/
def AddBoolean (h : Heap) (this : RegistryPtr) (name : String) :
    Option (Heap × ErrorOr ElementPtr) :=
  (ElementTemplate.mkDefault .bool name).bind (AddElementType h this)

/-- The method `Registry::FindChar`. -/
def FindChar (h : Heap) (this : RegistryPtr) (name : String) : Option (ErrorOr ElementPtr) :=
  FindElementType .char h this name

/-- The method `Registry::AddChar`. -/
def AddChar (h : Heap) (this : RegistryPtr) (name : String) (value : Char) :
    Option (Heap × ErrorOr ElementPtr) :=
  AddElementType h this (ElementTemplate.mk .char name (.char value))

/-- The method `Registry::FindString`. -/
def FindString (h : Heap) (this : RegistryPtr) (name : String) :
    Option (ErrorOr ElementPtr) :=
  FindElementType .string h this name

/-- The method `Registry::AddString`. -/
def AddString (h : Heap) (this : RegistryPtr) (name : String) (value : String) :
    Option (Heap × ErrorOr ElementPtr) :=
  AddElementType h this (ElementTemplate.mk .string name (.string value))

/-- The method `Registry::FindFloat`. -/
def FindFloat (h : Heap) (this : RegistryPtr) (name : String) : Option (ErrorOr ElementPtr) :=
  FindElementType .float h this name

/-- The method `Registry::AddFloat`. -/
def AddFloat (h : Heap) (this : RegistryPtr) (name : String) :
    Option (Heap × ErrorOr ElementPtr) :=
  (ElementTemplate.mkDefault .float name).bind (AddElementType h this)

/-- The method `Registry::FindDouble`. -/
def FindDouble (h : Heap) (this : RegistryPtr) (name : String) :
    Option (ErrorOr ElementPtr) :=
  FindElementType .double h this name

/-- The method `Registry::AddDouble`. -/
def AddDouble (h : Heap) (this : RegistryPtr) (name : String) :
    Option (Heap × ErrorOr ElementPtr) :=
  (ElementTemplate.mkDefault .double name).bind (AddElementType h this)

/-- The member of the family `FindInt32`, ..., `FindDouble` for the scalar type `T`. -/
def Find (T : ScalarType) (h : Heap) (this : RegistryPtr) (name : String) :
    Option (ErrorOr ElementPtr) :=
  match T with
  | .int32_t => FindInt32 h this name
  | .uint32_t => FindUnsignedInt32 h this name
  | .int64_t => FindInt64 h this name
  | .uint64_t => FindUnsignedInt64 h this name
  | .bool => FindBoolean h this name
  | .char => FindChar h this name
  | .string => FindString h this name
  | .float => FindFloat h this name
  | .double => FindDouble h this name

/-- The member of the family `AddInt32`, ..., `AddDouble` for the scalar type `T`; the two
initial values are those that `AddChar` and `AddString` take. -/
def Add (T : ScalarType) (h : Heap) (this : RegistryPtr) (name : String)
    (char_value : Char) (string_value : String) : Option (Heap × ErrorOr ElementPtr) :=
  match T with
  | .int32_t => AddInt32 h this name
  | .uint32_t => AddUnsignedInt32 h this name
  | .int64_t => AddInt64 h this name
  | .uint64_t => AddUnsignedInt64 h this name
  | .bool => AddBoolean h this name
  | .char => AddChar h this name char_value
  | .string => AddString h this name string_value
  | .float => AddFloat h this name
  | .double => AddDouble h this name

/-- The method `std::set<std::string>::insert`, the set being the list of its members. -/
def stdSetInsert (s : List String) (x : String) : List String :=
  if x ∈ s then s else s ++ [x]

/-- The method `Registry::GetChildRegistryNames`. -/
def GetChildRegistryNames (h : Heap) (this : RegistryPtr) : Option (List String) :=
  match h.registry this with
  | none => none
  | some self =>
    some (self.child_registries_.foldl
      (fun child_registry_names child_entry => stdSetInsert child_registry_names child_entry.1)
      [])

/-- The initial value of the element that `Add<T>` constructs. -/
def initialValue (T : ScalarType) (char_value : Char) (string_value : String) : Value :=
  match T with
  | .int32_t => .int32 0
  | .uint32_t => .uint32 0
  | .int64_t => .int64 0
  | .uint64_t => .uint64 0
  | .bool => .bool false
  | .char => .char char_value
  | .string => .string string_value
  | .float => .float 0
  | .double => .double 0

/-- The operator `ElementTemplate<T>::operator=(const T& other)`; the static type of the
element makes `other` a `T`. -/
def Element.assignValue (e : Element) (other : Value) : Option Element :=
  if other.type = e.value_.type then some { e with value_ := other } else none

/-! ## Sequences of operations -/

/-- A call of one of the public operations that change a registry or an element. -/
inductive Op where
  | AddChildRegistry (this : RegistryPtr) (name : String)
  | FindOrAddChildRegistry (this : RegistryPtr) (name : String)
  | Add (T : ScalarType) (this : RegistryPtr) (name : String) (char_value : Char)
      (string_value : String)
  | Assign (element : ElementPtr) (other : Value)
  | assignValue (element : ElementPtr) (other : Value)
  deriving DecidableEq, Repr

/-- The heap after one call, whatever the call returns. -/
def Op.run (h : Heap) : Op → Option Heap
  | .AddChildRegistry this name => (registry.AddChildRegistry h this name).map Prod.fst
  | .FindOrAddChildRegistry this name =>
    (registry.FindOrAddChildRegistry h this name).map Prod.fst
  | .Add T this name char_value string_value =>
    (registry.Add T h this name char_value string_value).map Prod.fst
  | .Assign element other =>
    match h.element element with
    | none => none
    | some object =>
      (object.Assign other).map
        (fun result => { h with elements := h.elements.set element result.2 })
  | .assignValue element other =>
    match h.element element with
    | none => none
    | some object =>
      (object.assignValue other).map
        (fun object' => { h with elements := h.elements.set element object' })

/-- The heap after a sequence of calls. -/
def run (h : Heap) : List Op → Option Heap
  | [] => some h
  | op :: ops => (op.run h).bind (fun h' => run h' ops)

/-- The registry `r'` is `r` with the same name and parent and with every entry of `r`. -/
def Registry.Extends (r r' : Registry) : Prop :=
  r'.name_ = r.name_ ∧ r'.parent_ = r.parent_ ∧
    (∀ key c, r.child_registries_.find key = some c →
      r'.child_registries_.find key = some c) ∧
    (∀ key e, r.elements_.find key = some e → r'.elements_.find key = some e)

/-- Every registry of `h` is a registry of `h'` at the same address, possibly with more
entries. -/
def Heap.Extends (h h' : Heap) : Prop :=
  ∀ p r, h.registry p = some r → ∃ r', h'.registry p = some r' ∧ r.Extends r'

/-- The steps of `FindElementByExtendedName`, at most `fuel` of them: the unrolling on which
the method is evaluated at a given path (`FindElementByExtendedName_eq_steps`). -/
def FindElementByExtendedNameSteps (h : Heap) :
    Nat → RegistryPtr → String → Option (ErrorOr ElementPtr)
  | 0, _, _ => none
  | fuel + 1, this, search_name =>
    match stdFind search_name.data internal.kNamespaceCharacter with
    | (_, []) => FindElement h this search_name
    | (registry_name, _ :: rest) =>
      match h.registry this with
      | none => none
      | some self =>
        if String.mk registry_name = self.name then
          FindElementByExtendedNameSteps h fuel this (String.mk rest)
        else
          match FindChildRegistry h this (String.mk registry_name) with
          | none => none
          | some (.error _) => some (.error .kNotFound)
          | some (.ok child_registry) =>
            FindElementByExtendedNameSteps h fuel child_registry (String.mk rest)

/-! ## The sanitizer as the spec words it -/

/-- The reserved set as the spec lists it: `<>()`, the braces, `[]#$!@%^&|~`, the backquote,
`;:.,/*-+=` and the space. -/
def specReservedChars : List Char :=
  ['<', '>', '(', ')', '\x7b', '\x7d', '[', ']', '#', '$', '!', '@', '%', '^', '&', '|', '~',
   '\x60', ';', ':', '.', ',', '/', '*', '-', '+', '=', ' ']

/-- The sanitizer as the spec words it: the characters of the name that are not reserved, in
their order. -/
def specRemoveReserved (name : String) : String :=
  String.mk (name.data.filter (fun c => decide (c ∉ specReservedChars)))

/-! ## Trees built without `FindOrAddChildRegistry` -/

/-- Whether the call is a call of `FindOrAddChildRegistry`. -/
def Op.isFindOrAddChildRegistry : Op → Bool
  | .FindOrAddChildRegistry _ _ => true
  | _ => false

/-- The links of a tree whose root is at address `0`: the root alone has no parent; a parent
is below its child and holds it under the name of the child; an element has an owner, which
holds it under the name of the element; no name holds the separator. -/
structure Heap.Linked (h : Heap) : Prop where
  root_of_no_parent : ∀ p r, h.registry p = some r → r.parent_ = none → p = 0
  parent_link : ∀ p r q, h.registry p = some r → r.parent_ = some q →
    q < p ∧ ∃ parent, h.registry q = some parent ∧
      parent.child_registries_.find r.name = some p
  owner_link : ∀ e object, h.element e = some object →
    ∃ p r, object.registry_ = some p ∧ h.registry p = some r ∧
      r.elements_.find object.name = some e
  registry_names : ∀ p r, h.registry p = some r → internal.kNamespaceCharacter ∉ r.name.data
  element_names : ∀ e object, h.element e = some object →
    internal.kNamespaceCharacter ∉ object.name.data

/-- No registry on the chain of parents from `p` up to a root has the name of its parent. -/
inductive Heap.DistinctPath (h : Heap) : RegistryPtr → Prop where
  | root (p : RegistryPtr) (self : Registry) (hself : h.registry p = some self)
      (hparent : self.parent_ = none) : Heap.DistinctPath h p
  | child (p q : RegistryPtr) (self parent : Registry) (hself : h.registry p = some self)
      (hparent : self.parent_ = some q) (hq : h.registry q = some parent)
      (hname : self.name ≠ parent.name) (habove : Heap.DistinctPath h q) :
      Heap.DistinctPath h p

/-! ## Paths, subtrees and the depth of the recursion -/

/-- The last segment of a path as the spec words it: the text after the final `'.'`, or the
whole path when it has no `'.'`. -/
def lastSegment (path : String) : String :=
  String.mk (path.data.reverse.takeWhile (fun c => c != internal.kNamespaceCharacter)).reverse

/-- The number of `'.'` characters of a path. -/
def dotCount (path : String) : Nat :=
  path.data.count internal.kNamespaceCharacter

/-- The registries of the subtree rooted at `R`: `R` itself and every registry held in the
child map of a registry of the subtree. -/
inductive Heap.InSubtree (h : Heap) (R : RegistryPtr) : RegistryPtr → Prop where
  | self : Heap.InSubtree h R R
  | child (q c : RegistryPtr) (node : Registry) (key : String)
      (hq : Heap.InSubtree h R q) (hnode : h.registry q = some node)
      (hentry : (key, c) ∈ node.child_registries_) : Heap.InSubtree h R c

/-- The links that every call of a public operation keeps: the child maps hold live
registries, and the element maps hold live elements under their names. -/
structure Heap.Owned (h : Heap) : Prop where
  children_live : ∀ p r key c, h.registry p = some r → (key, c) ∈ r.child_registries_ →
    c < h.registries.length
  elements_named : ∀ p r key e, h.registry p = some r → (key, e) ∈ r.elements_ →
    ∃ object, h.element e = some object ∧ object.name = key

/-- The method `Registry::FindElementByExtendedName` with a bound on the depth of its
recursion: `none` when a call would be nested deeper than `fuel`, otherwise `some` of what
the method gives. -/
def FindElementByExtendedNameFuel (h : Heap) :
    Nat → RegistryPtr → String → Option (Option (ErrorOr ElementPtr))
  | 0, _, _ => none
  | fuel + 1, this, search_name =>
    match stdFind search_name.data internal.kNamespaceCharacter with
    | (_, []) => some (FindElement h this search_name)
    | (registry_name, _ :: rest) =>
      match h.registry this with
      | none => some none
      | some self =>
        if String.mk registry_name = self.name then
          FindElementByExtendedNameFuel h fuel this (String.mk rest)
        else
          match FindChildRegistry h this (String.mk registry_name) with
          | none => some none
          | some (.error _) => some (some (.error .kNotFound))
          | some (.ok child_registry) =>
            FindElementByExtendedNameFuel h fuel child_registry (String.mk rest)

/-! ## Lemmas on the map and the heap -/

theorem UnorderedMap.find_append {V : Type} (m : UnorderedMap V) (k key : String) (v : V) :
    UnorderedMap.find (m ++ [(k, v)]) key =
      match UnorderedMap.find m key with
      | some x => some x
      | none => if k = key then some v else none := by
  induction m with
  | nil => simp [UnorderedMap.find]
  | cons entry rest ih =>
    obtain ⟨k', v'⟩ := entry
    simp only [List.cons_append, UnorderedMap.find]
    split
    · rfl
    · exact ih

theorem UnorderedMap.find_append_self {V : Type} (m : UnorderedMap V) (key : String) (v : V)
    (hfree : UnorderedMap.find m key = none) :
    UnorderedMap.find (m ++ [(key, v)]) key = some v := by
  rw [UnorderedMap.find_append, hfree]
  simp

theorem UnorderedMap.find_append_of_some {V : Type} (m : UnorderedMap V) (k key : String)
    (v x : V) (hx : UnorderedMap.find m key = some x) :
    UnorderedMap.find (m ++ [(k, v)]) key = some x := by
  rw [UnorderedMap.find_append, hx]

theorem UnorderedMap.emplace_of_none {V : Type} (m : UnorderedMap V) (key : String) (v : V)
    (hfree : UnorderedMap.find m key = none) :
    UnorderedMap.emplace m key v = (m ++ [(key, v)], v, true) := by
  simp [UnorderedMap.emplace, hfree]

theorem UnorderedMap.emplace_of_some {V : Type} (m : UnorderedMap V) (key : String) (v x : V)
    (hx : UnorderedMap.find m key = some x) :
    UnorderedMap.emplace m key v = (m, x, false) := by
  simp [UnorderedMap.emplace, hx]

theorem modify_append_length {α : Type} (f : α → α) (l : List α) (a : α) :
    (l ++ [a]).modify f l.length = l ++ [f a] := by
  induction l with
  | nil => rfl
  | cons x xs ih => simpa [List.modify_succ_cons] using ih

theorem Heap.registry_lt {h : Heap} {p : RegistryPtr} {r : Registry}
    (hp : h.registry p = some r) : p < h.registries.length := by
  unfold Heap.registry at hp
  exact (List.getElem?_eq_some.mp hp).1

theorem Heap.element_lt {h : Heap} {p : ElementPtr} {e : Element}
    (hp : h.element p = some e) : p < h.elements.length := by
  unfold Heap.element at hp
  exact (List.getElem?_eq_some.mp hp).1

/-- What `AddChildRegistry` does when the sanitized name is free. -/
theorem AddChildRegistry_of_free (h : Heap) (this : RegistryPtr) (self : Registry)
    (name : String) (hself : h.registry this = some self)
    (hfree : self.child_registries_.find (sanitize name) = none) :
    AddChildRegistry h this name =
      some ({ registries :=
                (h.registries.set this
                  { self with child_registries_ :=
                      self.child_registries_ ++ [(sanitize name, h.registries.length)] }) ++
                  [{ Registry.new name with parent_ := some this }]
              elements := h.elements },
            .ok h.registries.length) := by
  have hfree' : UnorderedMap.find self.child_registries_ (Registry.new name).name = none := hfree
  have hmod := modify_append_length (fun object : Registry => { object with parent_ := some this })
    (h.registries.set this
      { self with child_registries_ :=
          self.child_registries_ ++ [(sanitize name, h.registries.length)] })
    (Registry.new name)
  rw [List.length_set] at hmod
  simp only [AddChildRegistry, hself, UnorderedMap.emplace_of_none _ _ _ hfree']
  exact congrArg (fun l => some (Heap.mk l h.elements, Except.ok h.registries.length)) hmod

/-- What `AddChildRegistry` does when the sanitized name is taken. -/
theorem AddChildRegistry_of_taken (h : Heap) (this : RegistryPtr) (self : Registry)
    (name : String) (c : RegistryPtr) (hself : h.registry this = some self)
    (htaken : self.child_registries_.find (sanitize name) = some c) :
    AddChildRegistry h this name = some (h, .error .kUnavailable) := by
  have htaken' : UnorderedMap.find self.child_registries_ (Registry.new name).name = some c :=
    htaken
  simp only [AddChildRegistry, hself,
    UnorderedMap.emplace_of_some _ _ h.registries.length _ htaken']

theorem getElem?_set_append_self {α : Type} (l : List α) (i : Nat) (a b : α)
    (hi : i < l.length) : (l.set i a ++ [b])[i]? = some a := by
  rw [List.getElem?_append_left (by simpa using hi)]
  simp [List.getElem?_set, hi]

theorem getElem?_set_append_length {α : Type} (l : List α) (i : Nat) (a b : α) :
    (l.set i a ++ [b])[l.length]? = some b := by
  have hlen := List.getElem?_concat_length (l.set i a) b
  rwa [List.length_set] at hlen

theorem getElem?_set_append_other {α : Type} (l : List α) (i j : Nat) (a b : α)
    (hj : j < l.length) (hij : i ≠ j) : (l.set i a ++ [b])[j]? = l[j]? := by
  rw [List.getElem?_append_left (by simpa using hj)]
  simp [List.getElem?_set, hij]

/-- C1, as amended: when no child of `R` is stored under the sanitized form of `N`,
`R.AddChildRegistry(N)` succeeds and returns a new child `c` (an address that held no object
before, now a registry named by the sanitized `N` whose parent is `R`), and
`R.FindChildRegistry` called with the sanitized form of `N` returns that same `c`. -/
theorem AddChildRegistry_then_FindChildRegistry (h : Heap) (this : RegistryPtr)
    (self : Registry) (N : String) (hself : h.registry this = some self)
    (hfree : self.child_registries_.find (sanitize N) = none) :
    ∃ h' c, AddChildRegistry h this N = some (h', .ok c) ∧
      h.registry c = none ∧
      h'.registry c = some { Registry.new N with parent_ := some this } ∧
      FindChildRegistry h' this (sanitize N) = some (.ok c) := by
  have hlt := Heap.registry_lt hself
  refine ⟨_, _, AddChildRegistry_of_free h this self N hself hfree, ?_, ?_, ?_⟩
  · simp [Heap.registry]
  · exact getElem?_set_append_length _ _ _ _
  · simp only [FindChildRegistry, Heap.registry,
      getElem?_set_append_self _ _ _ _ hlt, UnorderedMap.find_append_self _ _ _ hfree]

/-- The amended C1 at the root `"app"` and the input name `"r.pc"`. -/
theorem AddChildRegistry_then_FindChildRegistry_witness :
    ∃ h' c, AddChildRegistry (Heap.root "app") 0 "r.pc" = some (h', .ok c) ∧
      (Heap.root "app").registry c = none ∧
      h'.registry c = some { Registry.new "r.pc" with parent_ := some 0 } ∧
      FindChildRegistry h' 0 (sanitize "r.pc") = some (.ok c) :=
  AddChildRegistry_then_FindChildRegistry (Heap.root "app") 0 (Registry.new "app") "r.pc"
    (by decide) (by decide)

/-- C1 as stated fails: on the root `"app"`, which has no child, `AddChildRegistry("r.pc")`
succeeds and returns the child at address `1`, stored under the key `"rpc"`, and
`FindChildRegistry("r.pc")` with the same input name then fails with `kNotFound`. -/
theorem FindChildRegistry_unsanitized_name_not_found :
    (Heap.root "app").registry 0 = some (Registry.new "app") ∧
    (Registry.new "app").child_registries_.find (sanitize "r.pc") = none ∧
    AddChildRegistry (Heap.root "app") 0 "r.pc" =
      some ({ registries :=
                [{ name_ := "app", parent_ := none, child_registries_ := [("rpc", 1)],
                   elements_ := [] },
                 { name_ := "rpc", parent_ := some 0, child_registries_ := [],
                   elements_ := [] }]
              elements := [] },
            .ok 1) ∧
    FindChildRegistry
      { registries :=
          [{ name_ := "app", parent_ := none, child_registries_ := [("rpc", 1)],
             elements_ := [] },
           { name_ := "rpc", parent_ := some 0, child_registries_ := [], elements_ := [] }]
        elements := [] }
      0 "r.pc" = some (.error .kNotFound) := by
  decide

/-- C2: when the sanitized form of `N` is already the key of a child of `R`,
`R.AddChildRegistry(N)` fails with `kUnavailable` and the heap afterwards is the heap before:
the child map of `R` has the same keys mapped to the same children, and its element map and
every other object are unchanged. -/
theorem AddChildRegistry_duplicate_fails (h : Heap) (this : RegistryPtr) (self : Registry)
    (N : String) (c : RegistryPtr) (hself : h.registry this = some self)
    (htaken : self.child_registries_.find (sanitize N) = some c) :
    AddChildRegistry h this N = some (h, .error .kUnavailable) :=
  AddChildRegistry_of_taken h this self N c hself htaken

/-- C2 on the registry `"test_registry"` with the child `"child1"`, adding `"child1"`
again, as in `DuplicateAddChildRegistryTest`. -/
theorem AddChildRegistry_duplicate_fails_witness :
    AddChildRegistry
        { registries :=
            [{ name_ := "test_registry", parent_ := none, child_registries_ := [("child1", 1)],
               elements_ := [] },
             { name_ := "child1", parent_ := some 0, child_registries_ := [],
               elements_ := [] }]
          elements := [] }
        0 "child1" =
      some ({ registries :=
                [{ name_ := "test_registry", parent_ := none,
                   child_registries_ := [("child1", 1)], elements_ := [] },
                 { name_ := "child1", parent_ := some 0, child_registries_ := [],
                   elements_ := [] }]
              elements := [] },
            .error .kUnavailable) :=
  AddChildRegistry_duplicate_fails _ 0
    { name_ := "test_registry", parent_ := none, child_registries_ := [("child1", 1)],
      elements_ := [] }
    "child1" 1 (by decide) (by decide)

/-! ## The type tags and the generic `Assign` and `Extract` -/

/-- Reading an object through its own type gives the object. -/
theorem reinterpretRead_same (T : ScalarType) (v : Value) (hv : v.type = T) :
    reinterpretRead T v = some v := by
  simp [reinterpretRead, hv]

/-- The generic `Assign` with a value whose tag differs from the tag of the element returns
`false` and leaves the element as it is. -/
theorem Element.Assign_of_tag_ne (e : Element) (other : Value)
    (htag : TypeTrait.type other.type ≠ e.type_) : e.Assign other = some (false, e) := by
  simp [Element.Assign, htag]

/-- The generic `Extract` into an object whose tag differs from the tag of the element
returns `false` and leaves the object as it is. -/
theorem Element.Extract_of_tag_ne (e : Element) (other : Value)
    (htag : TypeTrait.type other.type ≠ e.type_) : e.Extract other = some (false, other) := by
  simp [Element.Extract, htag]

/-- The tags of two distinct scalar types differ, unless the two are `int32_t` and `float`. -/
theorem DataTypeTrait.type_ne (U T : ScalarType) (hUT : U ≠ T)
    (hif : ¬ (U = .int32_t ∧ T = .float)) (hfi : ¬ (U = .float ∧ T = .int32_t)) :
    DataTypeTrait.type T ≠ DataTypeTrait.type U := by
  cases U <;> cases T <;> simp_all [DataTypeTrait.type]

/-- C5 fails on the code: an `Int32` element holding `-1` is an element of type `int32_t`,
and `1.0f` (the bit pattern `0x3F800000`) is a value of the distinct type `float`, yet the
generic `Assign` returns `true` and the element then holds `1065353216`, not `-1`. -/
theorem Assign_float_to_Int32_element_succeeds :
    (ElementTemplate.mk .int32_t "test_int32" (.int32 (-1))).Assign (.float 0x3F800000) =
      some (true,
        { name_ := "test_int32", type_ := .kFloat, registry_ := none,
          value_ := .int32 1065353216 }) := by
  decide

/-- C6 fails on the code: the generic `Extract` from an `Int32` element holding `-1` into a
`float` output holding `1.0f` returns `true` and overwrites the output with the bit pattern
`0xFFFFFFFF`. -/
theorem Extract_float_from_Int32_element_succeeds :
    (ElementTemplate.mk .int32_t "test_int32" (.int32 (-1))).Extract (.float 0x3F800000) =
      some (true, .float 0xFFFFFFFF) := by
  decide

/-- C7: for an element constructed as an element of type `T` (its tag is the tag of `T` and
it stores a `T`), every value `w` of type `T` and every output of type `T`: `Extract` returns
`true` and yields the stored value, in particular the initial value of a fresh element;
`Assign(w)` returns `true`; and `Extract` after it returns `true` and yields `w`. -/
theorem Assign_Extract_round_trip (T : ScalarType) (e : Element) (w out : Value)
    (htag : e.type_ = TypeTrait.type T) (hvalue : e.value_.type = T) (hw : w.type = T)
    (hout : out.type = T) :
    e.Extract out = some (true, e.value_) ∧
      e.Assign w = some (true, { e with value_ := w }) ∧
      ({ e with value_ := w } : Element).Extract out = some (true, w) := by
  subst hvalue
  refine ⟨?_, ?_, ?_⟩
  · simp [Element.Extract, Element.ExtractRaw, htag, hout, reinterpretRead]
  · simp [Element.Assign, Element.AssignRaw, htag, hw, reinterpretRead]
  · simp [Element.Extract, Element.ExtractRaw, htag, hout, hw, reinterpretRead]

/-- The two constructors of `ElementTemplate<T>` give an element of type `T`. -/
theorem ElementTemplate.mk_type (T : ScalarType) (name : String) (initial_value : Value)
    (hinit : initial_value.type = T) :
    (ElementTemplate.mk T name initial_value).type_ = TypeTrait.type T ∧
      (ElementTemplate.mk T name initial_value).value_.type = T :=
  ⟨rfl, hinit⟩

theorem ElementTemplate.mkDefault_type (T : ScalarType) (name : String) (e : Element)
    (he : ElementTemplate.mkDefault T name = some e) :
    e.type_ = TypeTrait.type T ∧ e.value_.type = T := by
  cases T <;>
    simp [ElementTemplate.mkDefault, TypeTrait.default_value, DataTypeTrait.default_value,
      ElementTemplate.mk] at he <;>
    subst he <;> exact ⟨rfl, rfl⟩

/-- C7 on the element of `TemplateMetaprogramTest`: an `Int32` element holding `-1`,
assigned `120`. -/
theorem Assign_Extract_round_trip_witness :
    (ElementTemplate.mk .int32_t "test_int32" (.int32 (-1))).Extract (.int32 0) =
        some (true, .int32 (-1)) ∧
      (ElementTemplate.mk .int32_t "test_int32" (.int32 (-1))).Assign (.int32 120) =
        some (true, ElementTemplate.mk .int32_t "test_int32" (.int32 120)) ∧
      (ElementTemplate.mk .int32_t "test_int32" (.int32 120)).Extract (.int32 0) =
        some (true, .int32 120) :=
  Assign_Extract_round_trip .int32_t (ElementTemplate.mk .int32_t "test_int32" (.int32 (-1)))
    (.int32 120) (.int32 0) rfl rfl rfl rfl

/-- C8 fails on the code: `int32_t` and `float` are distinct scalar types with the same tag
`kFloat`, and `kInt32` is the tag of no scalar type; the table is neither injective nor
onto. -/
theorem DataTypeTrait_type_not_bijective :
    DataTypeTrait.type .int32_t = .kFloat ∧ DataTypeTrait.type .float = .kFloat ∧
      (∀ T : ScalarType, DataTypeTrait.type T ≠ .kInt32) ∧
      ¬ Function.Injective DataTypeTrait.type ∧ ¬ Function.Surjective DataTypeTrait.type := by
  have honto : ∀ T : ScalarType, DataTypeTrait.type T ≠ .kInt32 := by
    intro T; cases T <;> simp [DataTypeTrait.type]
  refine ⟨rfl, rfl, honto, ?_, ?_⟩
  · intro hinj
    have hsame : DataTypeTrait.type .int32_t = DataTypeTrait.type .float := rfl
    exact absurd (hinj hsame) (by decide)
  · intro hsurj
    obtain ⟨T, hT⟩ := hsurj .kInt32
    exact honto T hT

/-- Outside the pair `int32_t`, `float` the generic `Assign` refuses a value of another
type. -/
theorem Element.Assign_of_other_type (U T : ScalarType) (e : Element) (w : Value)
    (hUT : U ≠ T) (hif : ¬ (U = .int32_t ∧ T = .float))
    (hfi : ¬ (U = .float ∧ T = .int32_t))
    (htag : e.type_ = TypeTrait.type U) (hw : w.type = T) :
    e.Assign w = some (false, e) := by
  apply Element.Assign_of_tag_ne
  rw [htag, hw]
  exact DataTypeTrait.type_ne U T hUT hif hfi

/-- Outside the pair `int32_t`, `float` the generic `Extract` refuses an output of another
type. -/
theorem Element.Extract_of_other_type (U T : ScalarType) (e : Element) (out : Value)
    (hUT : U ≠ T) (hif : ¬ (U = .int32_t ∧ T = .float))
    (hfi : ¬ (U = .float ∧ T = .int32_t))
    (htag : e.type_ = TypeTrait.type U) (hout : out.type = T) :
    e.Extract out = some (false, out) := by
  apply Element.Extract_of_tag_ne
  rw [htag, hout]
  exact DataTypeTrait.type_ne U T hUT hif hfi

/-! ## Elements of a registry -/

theorem initialValue_type (T : ScalarType) (char_value : Char) (string_value : String) :
    (initialValue T char_value string_value).type = T := by
  cases T <;> rfl

/-- Every member of the family `Add<T>` is `AddElementType` on the constructed element. -/
theorem Add_eq_AddElementType (T : ScalarType) (h : Heap) (this : RegistryPtr) (name : String)
    (char_value : Char) (string_value : String) :
    Add T h this name char_value string_value =
      AddElementType h this
        (ElementTemplate.mk T name (initialValue T char_value string_value)) := by
  cases T <;> rfl

/-- Every member of the family `Find<T>` is `FindElementType`. -/
theorem Find_eq_FindElementType (T : ScalarType) (h : Heap) (this : RegistryPtr)
    (name : String) : Find T h this name = FindElementType T h this name := by
  cases T <;> rfl

/-- What `AddElementType` does when the name of the element is free. -/
theorem AddElementType_of_free (h : Heap) (this : RegistryPtr) (self : Registry)
    (element : Element) (hself : h.registry this = some self)
    (hfree : self.elements_.find element.name = none) :
    AddElementType h this element =
      some ({ registries :=
                h.registries.set this
                  { self with elements_ :=
                      self.elements_ ++ [(element.name, h.elements.length)] }
              elements := h.elements ++ [{ element with registry_ := some this }] },
            .ok h.elements.length) := by
  have hmod := modify_append_length (fun object : Element => { object with registry_ := some this })
    h.elements element
  simp only [AddElementType, hself, UnorderedMap.emplace_of_none _ _ _ hfree, hmod]

/-- What `AddElementType` does when the name of the element is taken. -/
theorem AddElementType_of_taken (h : Heap) (this : RegistryPtr) (self : Registry)
    (element : Element) (present : ElementPtr) (hself : h.registry this = some self)
    (htaken : self.elements_.find element.name = some present) :
    AddElementType h this element = some (h, .error .kUnavailable) := by
  simp only [AddElementType, hself,
    UnorderedMap.emplace_of_some _ _ h.elements.length _ htaken]

/-- A name without reserved characters is its own sanitized form. -/
theorem sanitize_of_reserved_free (N : String)
    (hN : ∀ c ∈ N.data, c ∉ internal.kRegistryReservedChars.data) : sanitize N = N := by
  have hfilter : N.data.filter
      (fun string_char => !(internal.kRegistryReservedChars.data.elem string_char)) = N.data := by
    rw [List.filter_eq_self]
    intro c hc
    simpa using hN c hc
  show String.mk (N.data.filter _) = N
  rw [hfilter]

/-- Outside the pair `int32_t`, `float`: after a successful `R.Add<U>(N)`, with `N` free of
reserved characters, the typed lookup `R.Find<T>(N)` for another type `T` fails with
`kNotFound`. -/
theorem Find_of_other_type (U T : ScalarType) (h h' : Heap) (this : RegistryPtr) (N : String)
    (char_value : Char) (string_value : String) (e : ElementPtr) (hUT : U ≠ T)
    (hif : ¬ (U = .int32_t ∧ T = .float)) (hfi : ¬ (U = .float ∧ T = .int32_t))
    (hN : ∀ c ∈ N.data, c ∉ internal.kRegistryReservedChars.data)
    (hadd : Add U h this N char_value string_value = some (h', .ok e)) :
    Find T h' this N = some (.error .kNotFound) := by
  rw [Add_eq_AddElementType] at hadd
  have hname : (ElementTemplate.mk U N (initialValue U char_value string_value)).name = N :=
    sanitize_of_reserved_free N hN
  cases hself : h.registry this with
  | none => simp [AddElementType, hself] at hadd
  | some self =>
    have hlt := Heap.registry_lt hself
    cases hfind : self.elements_.find
        (ElementTemplate.mk U N (initialValue U char_value string_value)).name with
    | some present =>
      rw [AddElementType_of_taken h this self _ present hself hfind] at hadd
      simp at hadd
    | none =>
      rw [AddElementType_of_free h this self _ hself hfind] at hadd
      obtain ⟨rfl, -⟩ := Prod.mk.inj (Option.some.inj hadd)
      rw [hname] at hfind
      have htag := DataTypeTrait.type_ne U T hUT hif hfi
      rw [Find_eq_FindElementType]
      simp only [FindElementType, FindElement, Heap.registry, List.getElem?_set_self hlt,
        hname, UnorderedMap.find_append_self _ _ _ hfind, Heap.element,
        List.getElem?_concat_length]
      simp [Element.type, TypeTrait.type, ElementTemplate.mk, htag.symm]

/-- C9 fails on the code: on the root `"app"`, `AddInt32("x")` succeeds and returns the
element at address `0`; `int32_t` and `float` are distinct scalar types and `"x"` has no
reserved character, yet the typed lookup `FindFloat("x")` succeeds and returns that
element as a `Float`. -/
theorem Find_float_after_Add_int32_succeeds :
    Add .int32_t (Heap.root "app") 0 "x" 'a' "" =
      some ({ registries :=
                [{ name_ := "app", parent_ := none, child_registries_ := [],
                   elements_ := [("x", 0)] }]
              elements :=
                [{ name_ := "x", type_ := .kFloat, registry_ := some 0, value_ := .int32 0 }] },
            .ok 0) ∧
    Find .float
      { registries :=
          [{ name_ := "app", parent_ := none, child_registries_ := [],
             elements_ := [("x", 0)] }]
        elements :=
          [{ name_ := "x", type_ := .kFloat, registry_ := some 0, value_ := .int32 0 }] }
      0 "x" = some (.ok 0) := by
  decide

/-- C10: when `N` has no reserved character and is not yet the key of an element of `R`,
`R.Add<T>(N)` succeeds and returns a new element `e`; afterwards `R.Find<T>(N)` and
`R.FindElement(N)` both succeed and return `e`, and `e` is an element named `N`, owned by
`R`, whose `type()` is the tag of `T`. -/
theorem Add_then_Find (T : ScalarType) (h : Heap) (this : RegistryPtr) (self : Registry)
    (N : String) (char_value : Char) (string_value : String)
    (hself : h.registry this = some self)
    (hN : ∀ c ∈ N.data, c ∉ internal.kRegistryReservedChars.data)
    (hfree : self.elements_.find N = none) :
    ∃ h' e object, Add T h this N char_value string_value = some (h', .ok e) ∧
      h.element e = none ∧
      Find T h' this N = some (.ok e) ∧
      FindElement h' this N = some (.ok e) ∧
      h'.element e = some object ∧
      object.type = DataTypeTrait.type T ∧ object.name = N ∧ object.registry_ = some this := by
  have hlt := Heap.registry_lt hself
  have hname : (ElementTemplate.mk T N (initialValue T char_value string_value)).name = N :=
    sanitize_of_reserved_free N hN
  have hfree' : self.elements_.find
      (ElementTemplate.mk T N (initialValue T char_value string_value)).name = none := by
    rw [hname]; exact hfree
  have hadd := AddElementType_of_free h this self _ hself hfree'
  rw [hname] at hadd
  have hfind : FindElement
      { registries :=
          h.registries.set this
            { self with elements_ := self.elements_ ++ [(N, h.elements.length)] }
        elements := h.elements ++
          [{ ElementTemplate.mk T N (initialValue T char_value string_value) with
              registry_ := some this }] }
      this N = some (.ok h.elements.length) := by
    simp only [FindElement, Heap.registry, List.getElem?_set_self hlt,
      UnorderedMap.find_append_self _ _ _ hfree]
  refine ⟨_, _, _, (Add_eq_AddElementType T h this N char_value string_value).trans hadd,
    ?_, ?_, hfind, List.getElem?_concat_length _ _, rfl, hname, rfl⟩
  · simp [Heap.element]
  · rw [Find_eq_FindElementType]
    simp only [FindElementType, hfind, Heap.element, List.getElem?_concat_length]
    simp [Element.type, TypeTrait.type, ElementTemplate.mk]

/-- C10 with `AddBoolean("test_bool")` on the registry `"test_registry"`, as in
`AddBoolElementTest`. -/
theorem Add_then_Find_witness :
    ∃ h' e object, Add .bool (Heap.root "test_registry") 0 "test_bool" 'a' "" =
        some (h', .ok e) ∧
      (Heap.root "test_registry").element e = none ∧
      Find .bool h' 0 "test_bool" = some (.ok e) ∧
      FindElement h' 0 "test_bool" = some (.ok e) ∧
      h'.element e = some object ∧
      object.type = DataTypeTrait.type .bool ∧ object.name = "test_bool" ∧
      object.registry_ = some 0 :=
  Add_then_Find .bool (Heap.root "test_registry") 0 (Registry.new "test_registry") "test_bool"
    'a' "" (by decide) (by decide) (by decide)

/-! ## Path resolution -/

/-- No reserved character is left in a sanitized name. -/
theorem sanitize_not_reserved (N : String) (c : Char)
    (hc : c ∈ internal.kRegistryReservedChars.data) : c ∉ (sanitize N).data := by
  intro hmem
  have hmem' : c ∈ N.data.filter
      (fun string_char => !(internal.kRegistryReservedChars.data.elem string_char)) := hmem
  rw [List.mem_filter] at hmem'
  simp [hc] at hmem'

/-- The namespace separator is not in a sanitized name. -/
theorem sanitize_no_separator (N : String) :
    internal.kNamespaceCharacter ∉ (sanitize N).data :=
  sanitize_not_reserved N _ (by decide)

theorem stdFind_of_not_mem (s : List Char) (c : Char) (hc : c ∉ s) :
    stdFind s c = (s, []) := by
  induction s with
  | nil => rfl
  | cons x xs ih =>
    have hx : x ≠ c := fun hxc => hc (by simp [hxc])
    have hxs : c ∉ xs := fun hmem => hc (List.mem_cons_of_mem _ hmem)
    have ih' := ih hxs
    simp only [stdFind, Prod.mk.injEq] at ih' ⊢
    simp [List.takeWhile_cons, List.dropWhile_cons, hx, ih'.1, ih'.2]

theorem stdFind_append (pre rest : List Char) (c : Char) (hc : c ∉ pre) :
    stdFind (pre ++ c :: rest) c = (pre, c :: rest) := by
  induction pre with
  | nil => simp [stdFind, List.takeWhile_cons, List.dropWhile_cons]
  | cons x xs ih =>
    have hx : x ≠ c := fun hxc => hc (by simp [hxc])
    have hxs : c ∉ xs := fun hmem => hc (List.mem_cons_of_mem _ hmem)
    have ih' := ih hxs
    simp only [stdFind, Prod.mk.injEq] at ih' ⊢
    simp [List.takeWhile_cons, List.dropWhile_cons, hx, ih'.1, ih'.2]

/-- The body of `FindElementByExtendedName`. -/
theorem FindElementByExtendedName_eq (h : Heap) (this : RegistryPtr) (search_name : String) :
    FindElementByExtendedName h this search_name =
      match stdFind search_name.data internal.kNamespaceCharacter with
      | (_, []) => FindElement h this search_name
      | (registry_name, _ :: rest) =>
        match h.registry this with
        | none => none
        | some self =>
          if String.mk registry_name = self.name then
            FindElementByExtendedName h this (String.mk rest)
          else
            match FindChildRegistry h this (String.mk registry_name) with
            | none => none
            | some (.error _) => some (.error .kNotFound)
            | some (.ok child_registry) =>
              FindElementByExtendedName h child_registry (String.mk rest) := by
  conv => lhs; unfold FindElementByExtendedName
  split
  · rename_i heq
    simp only [heq]
  · rename_i heq
    simp only [heq]

/-- With more steps than the path has characters, the unrolling is the method. -/
theorem FindElementByExtendedName_eq_steps (h : Heap) (fuel : Nat) :
    ∀ (this : RegistryPtr) (search_name : String), search_name.length < fuel →
      FindElementByExtendedName h this search_name =
        FindElementByExtendedNameSteps h fuel this search_name := by
  induction fuel with
  | zero => intro _ _ hlt; omega
  | succ fuel ih =>
    intro this search_name hlt
    rw [FindElementByExtendedName_eq, FindElementByExtendedNameSteps]
    have hlen := (List.dropWhile_sublist (l := search_name.data)
      (fun x => x != internal.kNamespaceCharacter)).length_le
    rcases hfind : stdFind search_name.data internal.kNamespaceCharacter with
      ⟨pre, _ | ⟨c, rest⟩⟩
    · rfl
    · have hsnd := congrArg Prod.snd hfind
      simp only [stdFind] at hsnd
      rw [hsnd, List.length_cons] at hlen
      have hrest : (String.mk rest).length < fuel := by
        show rest.length < fuel
        have hdata : search_name.data.length < fuel + 1 := hlt
        omega
      simp only [ih _ _ hrest]

/-- A path without separator is looked up as an element of this registry. -/
theorem FindElementByExtendedName_leaf (h : Heap) (this : RegistryPtr) (s : String)
    (hs : internal.kNamespaceCharacter ∉ s.data) :
    FindElementByExtendedName h this s = FindElement h this s := by
  rw [FindElementByExtendedName_eq, stdFind_of_not_mem s.data _ hs]

/-- A path with a separator: the step on its first segment. -/
theorem FindElementByExtendedName_segment (h : Heap) (this : RegistryPtr)
    (pre rest : List Char) (hpre : internal.kNamespaceCharacter ∉ pre) :
    FindElementByExtendedName h this
        (String.mk (pre ++ internal.kNamespaceCharacter :: rest)) =
      match h.registry this with
      | none => none
      | some self =>
        if String.mk pre = self.name then FindElementByExtendedName h this (String.mk rest)
        else
          match FindChildRegistry h this (String.mk pre) with
          | none => none
          | some (.error _) => some (.error .kNotFound)
          | some (.ok child_registry) =>
            FindElementByExtendedName h child_registry (String.mk rest) := by
  rw [FindElementByExtendedName_eq, stdFind_append pre rest _ hpre]

/-- The characters of `head + "." + tail`. -/
theorem path_eq (head tail : String) :
    head ++ "." ++ tail = String.mk (head.data ++ internal.kNamespaceCharacter :: tail.data) := by
  apply String.ext
  simp [internal.kNamespaceCharacter]

/-- C4: for a registry `R` whose name is a sanitized name, as the name of every constructed
registry is, and every path `p`, resolving `R.name() + "." + p` from `R` gives what resolving
`p` from `R` gives: the same element, the same error, or neither. -/
theorem FindElementByExtendedName_skips_own_name (h : Heap) (this : RegistryPtr)
    (self : Registry) (N p : String) (hself : h.registry this = some self)
    (hname : self.name = sanitize N) :
    FindElementByExtendedName h this (self.name ++ "." ++ p) =
      FindElementByExtendedName h this p := by
  have hsep : internal.kNamespaceCharacter ∉ self.name.data := by
    rw [hname]; exact sanitize_no_separator N
  rw [path_eq, FindElementByExtendedName_segment h this _ _ hsep, hself]
  simp

/-! ## What the operations keep -/

theorem Registry_Extends_refl (r : Registry) : r.Extends r :=
  ⟨rfl, rfl, fun _ _ hfind => hfind, fun _ _ hfind => hfind⟩

theorem Registry_Extends_trans {a b c : Registry} (hab : a.Extends b) (hbc : b.Extends c) :
    a.Extends c :=
  ⟨hbc.1.trans hab.1, hbc.2.1.trans hab.2.1,
    fun key x hfind => hbc.2.2.1 key x (hab.2.2.1 key x hfind),
    fun key x hfind => hbc.2.2.2 key x (hab.2.2.2 key x hfind)⟩

theorem Heap_Extends_refl (h : Heap) : h.Extends h :=
  fun _ r hr => ⟨r, hr, Registry_Extends_refl r⟩

theorem Heap_Extends_trans {a b c : Heap} (hab : a.Extends b) (hbc : b.Extends c) :
    a.Extends c := by
  intro p r hr
  obtain ⟨r', hr', hext⟩ := hab p r hr
  obtain ⟨r'', hr'', hext'⟩ := hbc p r' hr'
  exact ⟨r'', hr'', Registry_Extends_trans hext hext'⟩

theorem Registry.Extends_add_child (self : Registry) (key : String) (c : RegistryPtr) :
    self.Extends { self with child_registries_ := self.child_registries_ ++ [(key, c)] } :=
  ⟨rfl, rfl, fun _ _ hfind => UnorderedMap.find_append_of_some _ _ _ _ _ hfind,
    fun _ _ hfind => hfind⟩

theorem Registry.Extends_add_element (self : Registry) (key : String) (e : ElementPtr) :
    self.Extends { self with elements_ := self.elements_ ++ [(key, e)] } :=
  ⟨rfl, rfl, fun _ _ hfind => hfind,
    fun _ _ hfind => UnorderedMap.find_append_of_some _ _ _ _ _ hfind⟩

theorem Heap.Extends_of_registries_eq (h h' : Heap) (heq : h'.registries = h.registries) :
    h.Extends h' := by
  intro p r hr
  refine ⟨r, ?_, Registry_Extends_refl r⟩
  unfold Heap.registry at hr ⊢
  rw [heq]; exact hr

theorem Heap.Extends_set (h : Heap) (this : RegistryPtr) (self self' : Registry)
    (elements : List Element) (hself : h.registry this = some self)
    (hext : self.Extends self') :
    h.Extends { registries := h.registries.set this self', elements := elements } := by
  intro p r hr
  have hlt := Heap.registry_lt hr
  by_cases hp : this = p
  · subst hp
    rw [hself] at hr
    obtain rfl := Option.some.inj hr
    exact ⟨self', by simp [Heap.registry, List.getElem?_set, hlt], hext⟩
  · refine ⟨r, ?_, Registry_Extends_refl r⟩
    unfold Heap.registry at hr ⊢
    simp only [List.getElem?_set_ne hp]
    exact hr

theorem Heap.Extends_set_append (h : Heap) (this : RegistryPtr) (self self' extra : Registry)
    (elements : List Element) (hself : h.registry this = some self)
    (hext : self.Extends self') :
    h.Extends { registries := h.registries.set this self' ++ [extra], elements := elements } := by
  intro p r hr
  have hlt := Heap.registry_lt hr
  by_cases hp : this = p
  · subst hp
    rw [hself] at hr
    obtain rfl := Option.some.inj hr
    exact ⟨self', getElem?_set_append_self _ _ _ _ hlt, hext⟩
  · refine ⟨r, ?_, Registry_Extends_refl r⟩
    unfold Heap.registry at hr ⊢
    rw [getElem?_set_append_other _ _ _ _ _ hlt hp]
    exact hr

/-- The two ways `AddChildRegistry` returns. -/
theorem AddChildRegistry_cases (h h' : Heap) (this : RegistryPtr) (name : String)
    (result : ErrorOr RegistryPtr) (hadd : AddChildRegistry h this name = some (h', result)) :
    ∃ self, h.registry this = some self ∧
      ((self.child_registries_.find (sanitize name) = none ∧
          h' = { registries :=
                   (h.registries.set this
                     { self with child_registries_ :=
                         self.child_registries_ ++ [(sanitize name, h.registries.length)] }) ++
                     [{ Registry.new name with parent_ := some this }]
                 elements := h.elements } ∧
          result = .ok h.registries.length) ∨
        (∃ c, self.child_registries_.find (sanitize name) = some c ∧ h' = h ∧
          result = .error .kUnavailable)) := by
  cases hself : h.registry this with
  | none => simp [AddChildRegistry, hself] at hadd
  | some self =>
    refine ⟨self, rfl, ?_⟩
    cases hfind : self.child_registries_.find (sanitize name) with
    | none =>
      rw [AddChildRegistry_of_free h this self name hself hfind] at hadd
      obtain ⟨rfl, rfl⟩ := Prod.mk.inj (Option.some.inj hadd)
      exact Or.inl ⟨rfl, rfl, rfl⟩
    | some c =>
      rw [AddChildRegistry_of_taken h this self name c hself hfind] at hadd
      obtain ⟨rfl, rfl⟩ := Prod.mk.inj (Option.some.inj hadd)
      exact Or.inr ⟨c, rfl, rfl, rfl⟩

/-- The two ways `AddElementType` returns. -/
theorem AddElementType_cases (h h' : Heap) (this : RegistryPtr) (element : Element)
    (result : ErrorOr ElementPtr) (hadd : AddElementType h this element = some (h', result)) :
    ∃ self, h.registry this = some self ∧
      ((self.elements_.find element.name = none ∧
          h' = { registries :=
                   h.registries.set this
                     { self with elements_ :=
                         self.elements_ ++ [(element.name, h.elements.length)] }
                 elements := h.elements ++ [{ element with registry_ := some this }] } ∧
          result = .ok h.elements.length) ∨
        (∃ present, self.elements_.find element.name = some present ∧ h' = h ∧
          result = .error .kUnavailable)) := by
  cases hself : h.registry this with
  | none => simp [AddElementType, hself] at hadd
  | some self =>
    refine ⟨self, rfl, ?_⟩
    cases hfind : self.elements_.find element.name with
    | none =>
      rw [AddElementType_of_free h this self element hself hfind] at hadd
      obtain ⟨rfl, rfl⟩ := Prod.mk.inj (Option.some.inj hadd)
      exact Or.inl ⟨rfl, rfl, rfl⟩
    | some present =>
      rw [AddElementType_of_taken h this self element present hself hfind] at hadd
      obtain ⟨rfl, rfl⟩ := Prod.mk.inj (Option.some.inj hadd)
      exact Or.inr ⟨present, rfl, rfl, rfl⟩

/-- The two ways `FindOrAddChildRegistry` returns. -/
theorem FindOrAddChildRegistry_cases (h h' : Heap) (this : RegistryPtr) (name : String)
    (c : RegistryPtr) (hcall : FindOrAddChildRegistry h this name = some (h', c)) :
    ∃ self, h.registry this = some self ∧
      ((self.child_registries_.find name = some c ∧ h' = h) ∨
        (self.child_registries_.find name = none ∧
          h' = { registries :=
                   (h.registries.set this
                     { self with child_registries_ :=
                         self.child_registries_ ++ [(name, h.registries.length)] }) ++
                     [Registry.new name]
                 elements := h.elements } ∧
          c = h.registries.length)) := by
  cases hself : h.registry this with
  | none => simp [FindOrAddChildRegistry, hself] at hcall
  | some self =>
    refine ⟨self, rfl, ?_⟩
    cases hfind : self.child_registries_.find name with
    | some present =>
      simp only [FindOrAddChildRegistry, hself, hfind] at hcall
      obtain ⟨rfl, rfl⟩ := Prod.mk.inj (Option.some.inj hcall)
      exact Or.inl ⟨rfl, rfl⟩
    | none =>
      simp only [FindOrAddChildRegistry, hself, hfind,
        UnorderedMap.emplace_of_none _ _ _ hfind] at hcall
      obtain ⟨rfl, rfl⟩ := Prod.mk.inj (Option.some.inj hcall)
      exact Or.inr ⟨rfl, rfl, rfl⟩

theorem AddChildRegistry_extends (h h' : Heap) (this : RegistryPtr) (name : String)
    (result : ErrorOr RegistryPtr) (hadd : AddChildRegistry h this name = some (h', result)) :
    h.Extends h' := by
  obtain ⟨self, hself, ⟨-, rfl, -⟩ | ⟨c, -, rfl, -⟩⟩ :=
    AddChildRegistry_cases h h' this name result hadd
  · exact Heap.Extends_set_append h this self _ _ _ hself (Registry.Extends_add_child self _ _)
  · exact Heap_Extends_refl _

theorem AddElementType_extends (h h' : Heap) (this : RegistryPtr) (element : Element)
    (result : ErrorOr ElementPtr) (hadd : AddElementType h this element = some (h', result)) :
    h.Extends h' := by
  obtain ⟨self, hself, ⟨-, rfl, -⟩ | ⟨c, -, rfl, -⟩⟩ :=
    AddElementType_cases h h' this element result hadd
  · exact Heap.Extends_set h this self _ _ hself (Registry.Extends_add_element self _ _)
  · exact Heap_Extends_refl _

theorem FindOrAddChildRegistry_extends (h h' : Heap) (this : RegistryPtr) (name : String)
    (c : RegistryPtr) (hcall : FindOrAddChildRegistry h this name = some (h', c)) :
    h.Extends h' := by
  obtain ⟨self, hself, ⟨-, rfl⟩ | ⟨-, rfl, -⟩⟩ :=
    FindOrAddChildRegistry_cases h h' this name c hcall
  · exact Heap_Extends_refl _
  · exact Heap.Extends_set_append h this self _ _ _ hself (Registry.Extends_add_child self _ _)

/-- One call keeps every registry, its name, its parent and its entries. -/
theorem Op_run_extends (h h' : Heap) (op : Op) (hrun : op.run h = some h') : h.Extends h' := by
  cases op with
  | AddChildRegistry this name =>
    simp only [Op.run, Option.map_eq_some'] at hrun
    obtain ⟨⟨h'', result⟩, hadd, rfl⟩ := hrun
    exact AddChildRegistry_extends h h'' this name result hadd
  | FindOrAddChildRegistry this name =>
    simp only [Op.run, Option.map_eq_some'] at hrun
    obtain ⟨⟨h'', c⟩, hcall, rfl⟩ := hrun
    exact FindOrAddChildRegistry_extends h h'' this name c hcall
  | Add T this name char_value string_value =>
    simp only [Op.run, Option.map_eq_some'] at hrun
    obtain ⟨⟨h'', result⟩, hadd, rfl⟩ := hrun
    rw [Add_eq_AddElementType] at hadd
    exact AddElementType_extends h h'' this _ result hadd
  | Assign element other =>
    simp only [Op.run] at hrun
    split at hrun
    · exact absurd hrun (by simp)
    · simp only [Option.map_eq_some'] at hrun
      obtain ⟨_, -, rfl⟩ := hrun
      exact Heap.Extends_of_registries_eq h _ rfl
  | assignValue element other =>
    simp only [Op.run] at hrun
    split at hrun
    · exact absurd hrun (by simp)
    · simp only [Option.map_eq_some'] at hrun
      obtain ⟨_, -, rfl⟩ := hrun
      exact Heap.Extends_of_registries_eq h _ rfl

/-- A sequence of calls keeps every registry, its name, its parent and its entries. -/
theorem run_extends (ops : List Op) : ∀ (h h' : Heap), run h ops = some h' → h.Extends h' := by
  induction ops with
  | nil =>
    intro h h' hrun
    obtain rfl := Option.some.inj hrun
    exact Heap_Extends_refl h
  | cons op ops ih =>
    intro h h' hrun
    simp only [run, Option.bind_eq_some] at hrun
    obtain ⟨h'', hop, hrest⟩ := hrun
    exact Heap_Extends_trans (Op_run_extends h h'' op hop) (ih h'' h' hrest)

/-! ## Resolving the path of an element of a child -/

/-- In a heap where `R` has the child `C` under the key `head`, other than the name of `R`,
and `C` has the element `e` under the key `leaf`, neither key holding a separator, resolving
`head + "." + leaf` from `R` returns `e`. -/
theorem FindElementByExtendedName_of_entries (h : Heap) (R C : RegistryPtr) (e : ElementPtr)
    (self child : Registry) (head leaf : String)
    (hself : h.registry R = some self) (hchild : h.registry C = some child)
    (hC : self.child_registries_.find head = some C)
    (he : child.elements_.find leaf = some e) (hne : head ≠ self.name)
    (hhead : internal.kNamespaceCharacter ∉ head.data)
    (hleaf : internal.kNamespaceCharacter ∉ leaf.data) :
    FindElementByExtendedName h R (head ++ "." ++ leaf) = some (.ok e) := by
  have hfindC : FindChildRegistry h R head = some (.ok C) := by
    simp only [FindChildRegistry, hself, hC]
  have hfindE : FindElement h C leaf = some (.ok e) := by
    simp only [FindElement, hchild, he]
  have hleaf' : FindElementByExtendedName h C (String.mk leaf.data) = some (.ok e) := by
    rw [FindElementByExtendedName_leaf h C _ hleaf]
    exact hfindE
  rw [path_eq, FindElementByExtendedName_segment h R _ _ hhead, hself]
  have hne' : ¬ String.mk head.data = self.name := hne
  have hfindC' : FindChildRegistry h R (String.mk head.data) = some (.ok C) := hfindC
  simp only [hne', if_false, hfindC', hleaf']

/-- C3: let `R` be a registry, `C` the child that a successful `R.AddChildRegistry(N)`
returned, the sanitized `N` differing from the name of `R`, and `e` the element that a
successful `C.Add<T>(M)` returned, any calls of the public operations coming between the two
and after them.  Then `R.FindElementByExtendedName` of the sanitized `N`, `"."` and the
sanitized `M` succeeds and returns `e`, the address at which `Add<T>` put its element. -/
theorem FindElementByExtendedName_of_added (h0 h1 h2 h3 h4 : Heap) (R C : RegistryPtr)
    (e : ElementPtr) (self : Registry) (N M : String) (T : ScalarType) (char_value : Char)
    (string_value : String) (ops1 ops2 : List Op)
    (hself : h0.registry R = some self) (hne : sanitize N ≠ self.name)
    (haddC : AddChildRegistry h0 R N = some (h1, .ok C))
    (hops1 : run h1 ops1 = some h2)
    (haddE : Add T h2 C M char_value string_value = some (h3, .ok e))
    (hops2 : run h3 ops2 = some h4) :
    FindElementByExtendedName h4 R (sanitize N ++ "." ++ sanitize M) = some (.ok e) ∧
      h3.element e =
        some { ElementTemplate.mk T M (initialValue T char_value string_value) with
                 registry_ := some C } := by
  have hlt := Heap.registry_lt hself
  -- the heap after `AddChildRegistry`
  obtain ⟨self', hself', hcase⟩ := AddChildRegistry_cases h0 h1 R N _ haddC
  rw [hself] at hself'
  obtain rfl := Option.some.inj hself'
  rcases hcase with ⟨hfree, rfl, hC⟩ | ⟨_, _, _, hbad⟩
  swap
  · exact absurd hbad (by simp)
  obtain rfl : C = h0.registries.length := Except.ok.inj hC
  have hR1 := getElem?_set_append_self h0.registries R
    { self with child_registries_ :=
        self.child_registries_ ++ [(sanitize N, h0.registries.length)] }
    { Registry.new N with parent_ := some R } hlt
  have hC1 := getElem?_set_append_length h0.registries R
    { self with child_registries_ :=
        self.child_registries_ ++ [(sanitize N, h0.registries.length)] }
    { Registry.new N with parent_ := some R }
  -- the heap before `Add<T>`
  have hext12 := run_extends ops1 _ h2 hops1
  obtain ⟨r2, hR2, hextR2⟩ := hext12 R _ hR1
  obtain ⟨c2, hC2, -⟩ := hext12 _ _ hC1
  -- the heap after `Add<T>`
  rw [Add_eq_AddElementType] at haddE
  have hext23 := AddElementType_extends h2 h3 _ _ _ haddE
  obtain ⟨c2', hC2', hcase⟩ := AddElementType_cases h2 h3 _ _ _ haddE
  rw [hC2] at hC2'
  obtain rfl := Option.some.inj hC2'
  rcases hcase with ⟨hfreeE, rfl, he⟩ | ⟨_, _, _, hbad⟩
  swap
  · exact absurd hbad (by simp)
  obtain rfl : e = h2.elements.length := Except.ok.inj he
  have hC3 : Heap.registry
      { registries :=
          h2.registries.set h0.registries.length
            { c2 with elements_ :=
                c2.elements_ ++
                  [((ElementTemplate.mk T M (initialValue T char_value string_value)).name,
                    h2.elements.length)] }
        elements := h2.elements ++
          [{ ElementTemplate.mk T M (initialValue T char_value string_value) with
               registry_ := some h0.registries.length }] }
      h0.registries.length = some
        { c2 with elements_ :=
            c2.elements_ ++
              [((ElementTemplate.mk T M (initialValue T char_value string_value)).name,
                h2.elements.length)] } := by
    simp only [Heap.registry, List.getElem?_set_self (Heap.registry_lt hC2)]
  obtain ⟨r3, hR3, hextR3⟩ := hext23 R _ hR2
  -- the heap in which the path is resolved
  have hext34 := run_extends ops2 _ h4 hops2
  obtain ⟨r4, hR4, hextR4⟩ := hext34 R _ hR3
  obtain ⟨c4, hC4, hextC4⟩ := hext34 _ _ hC3
  have hextR := Registry_Extends_trans (Registry_Extends_trans hextR2 hextR3) hextR4
  refine ⟨FindElementByExtendedName_of_entries h4 R h0.registries.length h2.elements.length
    r4 c4 (sanitize N) (sanitize M) hR4 hC4 ?_ ?_ ?_ (sanitize_no_separator N)
    (sanitize_no_separator M), ?_⟩
  · exact hextR.2.2.1 _ _ (UnorderedMap.find_append_self _ _ _ hfree)
  · exact hextC4.2.2.2 _ _ (UnorderedMap.find_append_self _ _ _ hfreeE)
  · show sanitize N ≠ r4.name_
    rw [hextR.1]
    exact hne
  · exact List.getElem?_concat_length _ _

/-- C3 on the example of the spec: the root `"app"`, its child `"rpc"`, the `double` element
`"timeout"` of the child, set to `30.0` (the bit pattern `0x403E000000000000`) afterwards. -/
theorem FindElementByExtendedName_of_added_witness :
    FindElementByExtendedName
        { registries :=
            [{ name_ := "app", parent_ := none, child_registries_ := [("rpc", 1)],
               elements_ := [] },
             { name_ := "rpc", parent_ := some 0, child_registries_ := [],
               elements_ := [("timeout", 0)] }]
          elements :=
            [{ name_ := "timeout", type_ := .kDouble, registry_ := some 1,
               value_ := .double 0x403E000000000000 }] }
        0 (sanitize "rpc" ++ "." ++ sanitize "timeout") = some (.ok 0) ∧
      Heap.element
        { registries :=
            [{ name_ := "app", parent_ := none, child_registries_ := [("rpc", 1)],
               elements_ := [] },
             { name_ := "rpc", parent_ := some 0, child_registries_ := [],
               elements_ := [("timeout", 0)] }]
          elements :=
            [{ name_ := "timeout", type_ := .kDouble, registry_ := some 1, value_ := .double 0 }] }
        0 = some { ElementTemplate.mk .double "timeout" (initialValue .double 'a' "") with
                     registry_ := some 1 } :=
  FindElementByExtendedName_of_added (Heap.root "app")
    { registries :=
        [{ name_ := "app", parent_ := none, child_registries_ := [("rpc", 1)],
           elements_ := [] },
         { name_ := "rpc", parent_ := some 0, child_registries_ := [], elements_ := [] }]
      elements := [] }
    { registries :=
        [{ name_ := "app", parent_ := none, child_registries_ := [("rpc", 1)],
           elements_ := [] },
         { name_ := "rpc", parent_ := some 0, child_registries_ := [], elements_ := [] }]
      elements := [] }
    { registries :=
        [{ name_ := "app", parent_ := none, child_registries_ := [("rpc", 1)],
           elements_ := [] },
         { name_ := "rpc", parent_ := some 0, child_registries_ := [],
           elements_ := [("timeout", 0)] }]
      elements :=
        [{ name_ := "timeout", type_ := .kDouble, registry_ := some 1, value_ := .double 0 }] }
    { registries :=
        [{ name_ := "app", parent_ := none, child_registries_ := [("rpc", 1)],
           elements_ := [] },
         { name_ := "rpc", parent_ := some 0, child_registries_ := [],
           elements_ := [("timeout", 0)] }]
      elements :=
        [{ name_ := "timeout", type_ := .kDouble, registry_ := some 1,
           value_ := .double 0x403E000000000000 }] }
    0 1 0 (Registry.new "app") "rpc" "timeout" .double 'a' "" []
    [Op.assignValue 0 (.double 0x403E000000000000)]
    (by decide) (by decide) (by decide) (by decide) (by decide) (by decide)

/-- C4 on the example of the spec: from the root `"app"`, the path `"rpc.timeout"` with and
without the name of the root before it. -/
theorem FindElementByExtendedName_skips_own_name_witness :
    FindElementByExtendedName
        { registries :=
            [{ name_ := "app", parent_ := none, child_registries_ := [("rpc", 1)],
               elements_ := [] },
             { name_ := "rpc", parent_ := some 0, child_registries_ := [],
               elements_ := [("timeout", 0)] }]
          elements :=
            [{ name_ := "timeout", type_ := .kDouble, registry_ := some 1, value_ := .double 0 }] }
        0 ("app" ++ "." ++ "rpc.timeout") =
      FindElementByExtendedName
        { registries :=
            [{ name_ := "app", parent_ := none, child_registries_ := [("rpc", 1)],
               elements_ := [] },
             { name_ := "rpc", parent_ := some 0, child_registries_ := [],
               elements_ := [("timeout", 0)] }]
          elements :=
            [{ name_ := "timeout", type_ := .kDouble, registry_ := some 1, value_ := .double 0 }] }
        0 "rpc.timeout" :=
  FindElementByExtendedName_skips_own_name
    { registries :=
        [{ name_ := "app", parent_ := none, child_registries_ := [("rpc", 1)],
           elements_ := [] },
         { name_ := "rpc", parent_ := some 0, child_registries_ := [],
           elements_ := [("timeout", 0)] }]
      elements :=
        [{ name_ := "timeout", type_ := .kDouble, registry_ := some 1, value_ := .double 0 }] }
    0
    { name_ := "app", parent_ := none, child_registries_ := [("rpc", 1)],
      elements_ := [] }
    "app" "rpc.timeout" (by decide) (by decide)

/-- The paths of the example of the spec: `"rpc.timeout"` and `"app.rpc.timeout"` resolve to
the element, `"rpc.missing"` fails with `kNotFound`. -/
theorem FindElementByExtendedName_spec_example :
    FindElementByExtendedName
        { registries :=
            [{ name_ := "app", parent_ := none, child_registries_ := [("rpc", 1)],
               elements_ := [] },
             { name_ := "rpc", parent_ := some 0, child_registries_ := [],
               elements_ := [("timeout", 0)] }]
          elements :=
            [{ name_ := "timeout", type_ := .kDouble, registry_ := some 1, value_ := .double 0 }] }
        0 "rpc.timeout" = some (.ok 0) ∧
      FindElementByExtendedName
        { registries :=
            [{ name_ := "app", parent_ := none, child_registries_ := [("rpc", 1)],
               elements_ := [] },
             { name_ := "rpc", parent_ := some 0, child_registries_ := [],
               elements_ := [("timeout", 0)] }]
          elements :=
            [{ name_ := "timeout", type_ := .kDouble, registry_ := some 1, value_ := .double 0 }] }
        0 "app.rpc.timeout" = some (.ok 0) ∧
      FindElementByExtendedName
        { registries :=
            [{ name_ := "app", parent_ := none, child_registries_ := [("rpc", 1)],
               elements_ := [] },
             { name_ := "rpc", parent_ := some 0, child_registries_ := [],
               elements_ := [("timeout", 0)] }]
          elements :=
            [{ name_ := "timeout", type_ := .kDouble, registry_ := some 1, value_ := .double 0 }] }
        0 "rpc.missing" = some (.error .kNotFound) := by
  refine ⟨?_, ?_, ?_⟩
  · rw [FindElementByExtendedName_eq_steps _ 16 _ _ (by decide)]
    decide
  · rw [FindElementByExtendedName_eq_steps _ 16 _ _ (by decide)]
    decide
  · rw [FindElementByExtendedName_eq_steps _ 16 _ _ (by decide)]
    decide

/-! ## The names of the registries of a tree -/

theorem getElem?_set_append_cases {α : Type} (l : List α) (i p : Nat) (a b x : α)
    (hx : (l.set i a ++ [b])[p]? = some x) :
    (p = i ∧ x = a) ∨ l[p]? = some x ∨ x = b := by
  by_cases hp : p < l.length
  · rw [List.getElem?_append_left (by simpa using hp)] at hx
    by_cases hi : i = p
    · subst hi
      rw [List.getElem?_set_self hp] at hx
      exact Or.inl ⟨rfl, (Option.some.inj hx).symm⟩
    · rw [List.getElem?_set_ne hi] at hx
      exact Or.inr (Or.inl hx)
  · rw [List.getElem?_append_right (by simpa using hp)] at hx
    have hmem := List.getElem?_mem hx
    exact Or.inr (Or.inr (by simpa using hmem))

theorem getElem?_set_cases {α : Type} (l : List α) (i p : Nat) (a x : α)
    (hx : (l.set i a)[p]? = some x) : (p = i ∧ x = a) ∨ l[p]? = some x := by
  by_cases hi : i = p
  · subst hi
    have hlt : i < l.length := by
      have hlen := (List.getElem?_eq_some.mp hx).1
      simpa using hlen
    rw [List.getElem?_set_self hlt] at hx
    exact Or.inl ⟨rfl, (Option.some.inj hx).symm⟩
  · rw [List.getElem?_set_ne hi] at hx
    exact Or.inr hx

/-- One call leaves every registry with a sanitized name, when every registry had one. -/
theorem Op_run_names (h h' : Heap) (op : Op) (hrun : op.run h = some h')
    (hnames : ∀ p r, h.registry p = some r → ∃ N, r.name = sanitize N) :
    ∀ p r, h'.registry p = some r → ∃ N, r.name = sanitize N := by
  cases op with
  | AddChildRegistry this name =>
    simp only [Op.run, Option.map_eq_some'] at hrun
    obtain ⟨⟨h'', result⟩, hadd, rfl⟩ := hrun
    obtain ⟨self, hself, ⟨-, rfl, -⟩ | ⟨c, -, rfl, -⟩⟩ :=
      AddChildRegistry_cases h h'' this name result hadd
    · intro p r hr
      rcases getElem?_set_append_cases _ _ _ _ _ _ hr with ⟨-, rfl⟩ | hold | rfl
      · exact hnames this self hself
      · exact hnames p r hold
      · exact ⟨name, rfl⟩
    · exact hnames
  | FindOrAddChildRegistry this name =>
    simp only [Op.run, Option.map_eq_some'] at hrun
    obtain ⟨⟨h'', c⟩, hcall, rfl⟩ := hrun
    obtain ⟨self, hself, ⟨-, rfl⟩ | ⟨-, rfl, -⟩⟩ :=
      FindOrAddChildRegistry_cases h h'' this name c hcall
    · exact hnames
    · intro p r hr
      rcases getElem?_set_append_cases _ _ _ _ _ _ hr with ⟨-, rfl⟩ | hold | rfl
      · exact hnames this self hself
      · exact hnames p r hold
      · exact ⟨name, rfl⟩
  | Add T this name char_value string_value =>
    simp only [Op.run, Option.map_eq_some'] at hrun
    obtain ⟨⟨h'', result⟩, hadd, rfl⟩ := hrun
    rw [Add_eq_AddElementType] at hadd
    obtain ⟨self, hself, ⟨-, rfl, -⟩ | ⟨c, -, rfl, -⟩⟩ :=
      AddElementType_cases h h'' this _ result hadd
    · intro p r hr
      rcases getElem?_set_cases _ _ _ _ _ hr with ⟨-, rfl⟩ | hold
      · exact hnames this self hself
      · exact hnames p r hold
    · exact hnames
  | Assign element other =>
    simp only [Op.run] at hrun
    split at hrun
    · exact absurd hrun (by simp)
    · simp only [Option.map_eq_some'] at hrun
      obtain ⟨_, -, rfl⟩ := hrun
      exact hnames
  | assignValue element other =>
    simp only [Op.run] at hrun
    split at hrun
    · exact absurd hrun (by simp)
    · simp only [Option.map_eq_some'] at hrun
      obtain ⟨_, -, rfl⟩ := hrun
      exact hnames

/-- In a tree built from a freshly constructed root by calls of the public operations, the
name of every registry is a sanitized name. -/
theorem run_root_names (ops : List Op) (root_name : String) (h : Heap)
    (hrun : run (Heap.root root_name) ops = some h) :
    ∀ p r, h.registry p = some r → ∃ N, r.name = sanitize N := by
  have hgen : ∀ (ops : List Op) (h0 h1 : Heap), run h0 ops = some h1 →
      (∀ p r, h0.registry p = some r → ∃ N, r.name = sanitize N) →
      ∀ p r, h1.registry p = some r → ∃ N, r.name = sanitize N := by
    intro ops
    induction ops with
    | nil =>
      intro h0 h1 hrun0 hnames
      obtain rfl := Option.some.inj hrun0
      exact hnames
    | cons op ops ih =>
      intro h0 h1 hrun0 hnames
      simp only [run, Option.bind_eq_some] at hrun0
      obtain ⟨h', hop, hrest⟩ := hrun0
      exact ih h' h1 hrest (Op_run_names h0 h' op hop hnames)
  refine hgen ops _ h hrun ?_
  intro p r hr
  have hmem := List.getElem?_mem hr
  obtain rfl : r = Registry.new root_name := by simpa [Heap.root] using hmem
  exact ⟨root_name, rfl⟩

/-- The statement of C4 in a tree built from a freshly constructed root by calls of the
public operations: no assumption on the name is left. -/
theorem FindElementByExtendedName_skips_own_name_of_run (ops : List Op) (root_name : String)
    (h : Heap) (this : RegistryPtr) (self : Registry) (p : String)
    (hrun : run (Heap.root root_name) ops = some h) (hself : h.registry this = some self) :
    FindElementByExtendedName h this (self.name ++ "." ++ p) =
      FindElementByExtendedName h this p := by
  obtain ⟨N, hname⟩ := run_root_names ops root_name h hrun this self hself
  have hsep : internal.kNamespaceCharacter ∉ self.name.data := by
    rw [hname]; exact sanitize_no_separator N
  rw [path_eq, FindElementByExtendedName_segment h this _ _ hsep, hself]
  simp

/-! ## The sanitizer -/

theorem kRegistryReservedChars_data :
    internal.kRegistryReservedChars.data = specReservedChars := by
  decide

/-- C15: for every string `s`, `RemoveReservedCharacters(s, kRegistryReservedChars)` is `s`
filtered by "not in the reserved set that the spec lists"; the result has no reserved
character, in particular no `'.'`; its characters are those of `s` in their order, and every
character that is not reserved occurs in it as often as in `s`; `"te#st.na@me"` becomes
`"testname"`; and this string is the `name()` of every constructed `Registry` and
`Element`. -/
theorem RemoveReservedCharacters_spec (s : String) :
    internal.RemoveReservedCharacters s internal.kRegistryReservedChars = specRemoveReserved s ∧
      (∀ c ∈ (internal.RemoveReservedCharacters s internal.kRegistryReservedChars).data,
        c ∉ specReservedChars) ∧
      '.' ∉ (internal.RemoveReservedCharacters s internal.kRegistryReservedChars).data ∧
      List.Sublist (internal.RemoveReservedCharacters s internal.kRegistryReservedChars).data
        s.data ∧
      (∀ c, c ∉ specReservedChars →
        (internal.RemoveReservedCharacters s internal.kRegistryReservedChars).data.count c =
          s.data.count c) ∧
      internal.RemoveReservedCharacters "te#st.na@me" internal.kRegistryReservedChars =
        "testname" ∧
      (∀ N : String, (Registry.new N).name =
        internal.RemoveReservedCharacters N internal.kRegistryReservedChars) ∧
      (∀ (T : ScalarType) (N : String) (v : Value), (ElementTemplate.mk T N v).name =
        internal.RemoveReservedCharacters N internal.kRegistryReservedChars) := by
  have hpred : (fun string_char : Char =>
      !(internal.kRegistryReservedChars.data.elem string_char)) =
      (fun c => decide (c ∉ specReservedChars)) := by
    funext c
    rw [kRegistryReservedChars_data]
    simp
  have hmem : ∀ c ∈ (internal.RemoveReservedCharacters s internal.kRegistryReservedChars).data,
      c ∉ specReservedChars := by
    intro c hc
    have hc' : c ∈ s.data.filter
        (fun string_char => !(internal.kRegistryReservedChars.data.elem string_char)) := hc
    rw [hpred, List.mem_filter] at hc'
    simpa using hc'.2
  refine ⟨?_, hmem, ?_, ?_, ?_, by decide, fun _ => rfl, fun _ _ _ => rfl⟩
  · show String.mk (s.data.filter _) = String.mk (s.data.filter _)
    rw [hpred]
  · intro hdot
    exact hmem '.' hdot (by decide)
  · exact List.filter_sublist s.data
  · intro c hc
    show (s.data.filter _).count c = s.data.count c
    rw [hpred, List.count_filter]
    simpa using hc

/-- C16: sanitizing a sanitized name gives the same name. -/
theorem RemoveReservedCharacters_idempotent (s : String) :
    internal.RemoveReservedCharacters
        (internal.RemoveReservedCharacters s internal.kRegistryReservedChars)
        internal.kRegistryReservedChars =
      internal.RemoveReservedCharacters s internal.kRegistryReservedChars := by
  show String.mk ((s.data.filter _).filter _) = String.mk (s.data.filter _)
  rw [List.filter_filter]
  simp

/-! ## A second element or child under a name -/

/-- C17: when the sanitized form of `N` is already the key of an element of `R`, `R.Add<T>(N)`
fails with `kUnavailable` for every scalar type `T`, and the heap afterwards is the heap
before: the elements of `R`, their types and values, and the children of `R` are unchanged. -/
theorem Add_duplicate_fails (T : ScalarType) (h : Heap) (this : RegistryPtr) (self : Registry)
    (N : String) (char_value : Char) (string_value : String) (present : ElementPtr)
    (hself : h.registry this = some self)
    (htaken : self.elements_.find (sanitize N) = some present) :
    Add T h this N char_value string_value = some (h, .error .kUnavailable) := by
  rw [Add_eq_AddElementType]
  exact AddElementType_of_taken h this self _ present hself htaken

/-- C17 on the registry `"test_registry"` with the boolean element `"test_bool"`, adding a
string element `"test_bool"`. -/
theorem Add_duplicate_fails_witness :
    Add .string
        { registries :=
            [{ name_ := "test_registry", parent_ := none, child_registries_ := [],
               elements_ := [("test_bool", 0)] }]
          elements :=
            [{ name_ := "test_bool", type_ := .kBoolean, registry_ := some 0,
               value_ := .bool false }] }
        0 "test_bool" 'a' "text" =
      some ({ registries :=
                [{ name_ := "test_registry", parent_ := none, child_registries_ := [],
                   elements_ := [("test_bool", 0)] }]
              elements :=
                [{ name_ := "test_bool", type_ := .kBoolean, registry_ := some 0,
                   value_ := .bool false }] },
            .error .kUnavailable) :=
  Add_duplicate_fails .string _ 0
    { name_ := "test_registry", parent_ := none, child_registries_ := [],
      elements_ := [("test_bool", 0)] }
    "test_bool" 'a' "text" 0 (by decide) (by decide)

/-- What `FindOrAddChildRegistry` does when the name as given is a key. -/
theorem FindOrAddChildRegistry_of_present (h : Heap) (this : RegistryPtr) (self : Registry)
    (name : String) (c : RegistryPtr) (hself : h.registry this = some self)
    (hfind : self.child_registries_.find name = some c) :
    FindOrAddChildRegistry h this name = some (h, c) := by
  simp only [FindOrAddChildRegistry, hself, hfind]

/-- What `FindOrAddChildRegistry` does when the name as given is not a key. -/
theorem FindOrAddChildRegistry_of_absent (h : Heap) (this : RegistryPtr) (self : Registry)
    (name : String) (hself : h.registry this = some self)
    (hfind : self.child_registries_.find name = none) :
    FindOrAddChildRegistry h this name =
      some ({ registries :=
                (h.registries.set this
                  { self with child_registries_ :=
                      self.child_registries_ ++ [(name, h.registries.length)] }) ++
                  [Registry.new name]
              elements := h.elements },
            h.registries.length) := by
  simp only [FindOrAddChildRegistry, hself, hfind, UnorderedMap.emplace_of_none _ _ _ hfind]

/-- C11: for every registry `R` and every name `N`, `R.FindOrAddChildRegistry(N)` returns a
child `c`; afterwards `R.FindChildRegistry(N)` returns `c`, and a second
`R.FindOrAddChildRegistry(N)` returns `c` again and leaves the heap, so the child map of `R`,
as it is. -/
theorem FindOrAddChildRegistry_twice (h : Heap) (this : RegistryPtr) (self : Registry)
    (N : String) (hself : h.registry this = some self) :
    ∃ h1 c, FindOrAddChildRegistry h this N = some (h1, c) ∧
      FindChildRegistry h1 this N = some (.ok c) ∧
      FindOrAddChildRegistry h1 this N = some (h1, c) := by
  have hlt := Heap.registry_lt hself
  cases hfind : self.child_registries_.find N with
  | some c =>
    have hcall := FindOrAddChildRegistry_of_present h this self N c hself hfind
    refine ⟨h, c, hcall, ?_, hcall⟩
    simp only [FindChildRegistry, hself, hfind]
  | none =>
    refine ⟨_, _, FindOrAddChildRegistry_of_absent h this self N hself hfind, ?_, ?_⟩
    · simp only [FindChildRegistry, Heap.registry, getElem?_set_append_self _ _ _ _ hlt,
        UnorderedMap.find_append_self _ _ _ hfind]
    · simp only [FindOrAddChildRegistry, Heap.registry, getElem?_set_append_self _ _ _ _ hlt,
        UnorderedMap.find_append_self _ _ _ hfind]

/-- C11 on the registry `"test_registry"` and the name `"child2"`, as in
`FindOrAddChildRegistryTest`. -/
theorem FindOrAddChildRegistry_twice_witness :
    ∃ h1 c, FindOrAddChildRegistry (Heap.root "test_registry") 0 "child2" = some (h1, c) ∧
      FindChildRegistry h1 0 "child2" = some (.ok c) ∧
      FindOrAddChildRegistry h1 0 "child2" = some (h1, c) :=
  FindOrAddChildRegistry_twice (Heap.root "test_registry") 0 (Registry.new "test_registry")
    "child2" (by decide)

/-! ## `FindOrAddChildRegistry` on a name with reserved characters, and the parent of its child -/

/-- C12 fails on the code: on the root `"app"`, `AddChildRegistry("r.pc")` succeeds and returns
the child at address `1`, stored under `"rpc"`; `FindOrAddChildRegistry("r.pc")` with the same
name then returns another child, at address `2`, which it has created and stored under
`"r.pc"`: the child map has grown from one entry to two. -/
theorem FindOrAddChildRegistry_after_AddChildRegistry_creates :
    AddChildRegistry (Heap.root "app") 0 "r.pc" =
      some ({ registries :=
                [{ name_ := "app", parent_ := none, child_registries_ := [("rpc", 1)],
                   elements_ := [] },
                 { name_ := "rpc", parent_ := some 0, child_registries_ := [],
                   elements_ := [] }]
              elements := [] },
            .ok 1) ∧
    FindOrAddChildRegistry
      { registries :=
          [{ name_ := "app", parent_ := none, child_registries_ := [("rpc", 1)],
             elements_ := [] },
           { name_ := "rpc", parent_ := some 0, child_registries_ := [], elements_ := [] }]
        elements := [] }
      0 "r.pc" =
      some ({ registries :=
                [{ name_ := "app", parent_ := none,
                   child_registries_ := [("rpc", 1), ("r.pc", 2)], elements_ := [] },
                 { name_ := "rpc", parent_ := some 0, child_registries_ := [],
                   elements_ := [] },
                 { name_ := "rpc", parent_ := none, child_registries_ := [],
                   elements_ := [] }]
              elements := [] },
            2) := by
  decide

/-- For a name without reserved characters C12 holds: after a successful
`R.AddChildRegistry(N)` that returned `c`, `R.FindOrAddChildRegistry(N)` returns `c` and
leaves the heap as it is. -/
theorem FindOrAddChildRegistry_after_AddChildRegistry_of_reserved_free (h h1 : Heap)
    (this c : RegistryPtr) (N : String)
    (hN : ∀ x ∈ N.data, x ∉ internal.kRegistryReservedChars.data)
    (hadd : AddChildRegistry h this N = some (h1, .ok c)) :
    FindOrAddChildRegistry h1 this N = some (h1, c) := by
  obtain ⟨self, hself, ⟨hfree, rfl, hc⟩ | ⟨_, _, _, hbad⟩⟩ :=
    AddChildRegistry_cases h h1 this N _ hadd
  swap
  · exact absurd hbad (by simp)
  obtain rfl : c = h.registries.length := Except.ok.inj hc
  have hlt := Heap.registry_lt hself
  rw [sanitize_of_reserved_free N hN] at hfree ⊢
  simp only [FindOrAddChildRegistry, Heap.registry, getElem?_set_append_self _ _ _ _ hlt,
    UnorderedMap.find_append_self _ _ _ hfree]

/-- C14 fails on the code: on the root `"app"`, `FindOrAddChildRegistry("rpc")` creates the
child at address `1` and stores it in the child map of the root, but the parent of the child
is null: the `FullName()` of the root is `"app"` and the `FullName()` of the child is `"rpc"`,
not `"app.rpc"`. -/
theorem FindOrAddChildRegistry_child_has_no_parent :
    run (Heap.root "app") [Op.FindOrAddChildRegistry 0 "rpc"] =
      some { registries :=
               [{ name_ := "app", parent_ := none, child_registries_ := [("rpc", 1)],
                  elements_ := [] },
                { name_ := "rpc", parent_ := none, child_registries_ := [], elements_ := [] }]
             elements := [] } ∧
    Registry.FullName
      { registries :=
          [{ name_ := "app", parent_ := none, child_registries_ := [("rpc", 1)],
             elements_ := [] },
           { name_ := "rpc", parent_ := none, child_registries_ := [], elements_ := [] }]
        elements := [] }
      0 = some "app" ∧
    Registry.FullName
      { registries :=
          [{ name_ := "app", parent_ := none, child_registries_ := [("rpc", 1)],
             elements_ := [] },
           { name_ := "rpc", parent_ := none, child_registries_ := [], elements_ := [] }]
        elements := [] }
      1 = some "rpc" := by
  decide

/-- C18 fails on the code: after `AddChildRegistry("rpc")` and
`FindOrAddChildRegistry("r.pc")` on the root `"app"`, the root has two distinct direct
children, at the addresses `1` and `2`, and the `name()` of both is `"rpc"`. -/
theorem FindOrAddChildRegistry_duplicates_child_name :
    run (Heap.root "app") [Op.AddChildRegistry 0 "rpc", Op.FindOrAddChildRegistry 0 "r.pc"] =
      some { registries :=
               [{ name_ := "app", parent_ := none,
                  child_registries_ := [("rpc", 1), ("r.pc", 2)], elements_ := [] },
                { name_ := "rpc", parent_ := some 0, child_registries_ := [],
                  elements_ := [] },
                { name_ := "rpc", parent_ := none, child_registries_ := [],
                  elements_ := [] }]
             elements := [] } ∧
    Registry.name { name_ := "rpc", parent_ := some 0, child_registries_ := [],
                    elements_ := [] } =
      Registry.name { name_ := "rpc", parent_ := none, child_registries_ := [],
                      elements_ := [] } := by
  decide

/-- C19 fails on the code: after `FindOrAddChildRegistry("r.pc")` on the root `"app"`, the
only direct child of the root is the registry at address `1`, whose `name()` is `"rpc"`, and
`GetChildRegistryNames()` is the set of `"r.pc"`. -/
theorem GetChildRegistryNames_not_child_names :
    run (Heap.root "app") [Op.FindOrAddChildRegistry 0 "r.pc"] =
      some { registries :=
               [{ name_ := "app", parent_ := none, child_registries_ := [("r.pc", 1)],
                  elements_ := [] },
                { name_ := "rpc", parent_ := none, child_registries_ := [], elements_ := [] }]
             elements := [] } ∧
    GetChildRegistryNames
      { registries :=
          [{ name_ := "app", parent_ := none, child_registries_ := [("r.pc", 1)],
             elements_ := [] },
           { name_ := "rpc", parent_ := none, child_registries_ := [], elements_ := [] }]
        elements := [] }
      0 = some ["r.pc"] := by
  decide

/-! ## `FullName` -/

theorem FullNameWalk_succ (h : Heap) (fuel : Nat) :
    ∀ (p : RegistryPtr) (full : String), FullNameWalk h fuel p = some full →
      FullNameWalk h (fuel + 1) p = some full := by
  induction fuel with
  | zero => intro p full hwalk; simp [FullNameWalk] at hwalk
  | succ fuel ih =>
    intro p full hwalk
    rw [FullNameWalk] at hwalk ⊢
    cases hself : h.registry p with
    | none => simp [hself] at hwalk
    | some self =>
      simp only [hself] at hwalk ⊢
      cases hparent : self.parent_ with
      | none => simpa [hparent] using hwalk
      | some q =>
        simp only [hparent, Option.map_eq_some'] at hwalk ⊢
        obtain ⟨above, habove, rfl⟩ := hwalk
        exact ⟨above, ih q above habove, rfl⟩

/-- More steps do not change the result of the walk. -/
theorem FullNameWalk_mono (h : Heap) (fuel fuel' : Nat) (hle : fuel ≤ fuel')
    (p : RegistryPtr) (full : String) (hwalk : FullNameWalk h fuel p = some full) :
    FullNameWalk h fuel' p = some full := by
  induction hle with
  | refl => exact hwalk
  | step _ ih => exact FullNameWalk_succ h _ p full ih

/-- The walk reads names and parents only, which later calls keep. -/
theorem FullNameWalk_extends (h h' : Heap) (hext : h.Extends h') (fuel : Nat) :
    ∀ (p : RegistryPtr) (full : String), FullNameWalk h fuel p = some full →
      FullNameWalk h' fuel p = some full := by
  induction fuel with
  | zero => intro p full hwalk; simp [FullNameWalk] at hwalk
  | succ fuel ih =>
    intro p full hwalk
    rw [FullNameWalk] at hwalk ⊢
    cases hself : h.registry p with
    | none => simp [hself] at hwalk
    | some self =>
      obtain ⟨self', hself', hname, hparent', -, -⟩ := hext p self hself
      simp only [hself] at hwalk
      simp only [hself', Registry.name, hname, hparent']
      cases hparent : self.parent_ with
      | none => simpa [hparent, Registry.name] using hwalk
      | some q =>
        simp only [hparent, Option.map_eq_some', Registry.name] at hwalk ⊢
        obtain ⟨above, habove, rfl⟩ := hwalk
        exact ⟨above, ih q above habove, rfl⟩

/-- When every parent pointer points below its registry, the walk from a registry at address
`p` ends within `p + 1` steps. -/
theorem FullNameWalk_defined (h : Heap)
    (hbelow : ∀ p r q, h.registry p = some r → r.parent_ = some q → q < p) :
    ∀ (p : RegistryPtr) (r : Registry), h.registry p = some r →
      ∃ full, FullNameWalk h (p + 1) p = some full := by
  intro p
  induction p using Nat.strong_induction_on with
  | _ p ih =>
    intro r hr
    rw [FullNameWalk]
    simp only [hr]
    cases hparent : r.parent_ with
    | none => exact ⟨r.name, rfl⟩
    | some q =>
      have hq := hbelow p r q hr hparent
      have hqlt : q < h.registries.length := Nat.lt_trans hq (Heap.registry_lt hr)
      have hrq : h.registry q = some (h.registries[q]) := by
        simp [Heap.registry, hqlt]
      obtain ⟨above, habove⟩ := ih q hq _ hrq
      exact ⟨above ++ "." ++ r.name, by
        simp only [FullNameWalk_mono h (q + 1) p hq q above habove, Option.map_some']⟩

/-- When every parent pointer points below its registry, `FullName` returns on every
registry. -/
theorem FullName_defined (h : Heap)
    (hbelow : ∀ p r q, h.registry p = some r → r.parent_ = some q → q < p)
    (p : RegistryPtr) (r : Registry) (hr : h.registry p = some r) :
    ∃ full, Registry.FullName h p = some full := by
  obtain ⟨full, hfull⟩ := FullNameWalk_defined h hbelow p r hr
  exact ⟨full, FullNameWalk_mono h (p + 1) _ (Heap.registry_lt hr) p full hfull⟩

theorem getElem?_set_append_origin {α : Type} (l : List α) (i p : Nat) (a b x : α)
    (hx : (l.set i a ++ [b])[p]? = some x) :
    (p = i ∧ x = a) ∨ (p ≠ i ∧ l[p]? = some x) ∨ (p = l.length ∧ x = b) := by
  by_cases hp : p < l.length
  · rw [List.getElem?_append_left (by simpa using hp)] at hx
    by_cases hi : i = p
    · subst hi
      rw [List.getElem?_set_self hp] at hx
      exact Or.inl ⟨rfl, (Option.some.inj hx).symm⟩
    · rw [List.getElem?_set_ne hi] at hx
      exact Or.inr (Or.inl ⟨fun hpi => hi hpi.symm, hx⟩)
  · have hlen := (List.getElem?_eq_some.mp hx).1
    simp only [List.length_append, List.length_set, List.length_singleton] at hlen
    have hpl : p = l.length := by omega
    subst hpl
    rw [getElem?_set_append_length] at hx
    exact Or.inr (Or.inr ⟨rfl, (Option.some.inj hx).symm⟩)

/-- A property of the heap that every allowed call keeps holds after a sequence of allowed
calls. -/
theorem run_invariant (P : Heap → Prop) (allowed : Op → Prop)
    (hstep : ∀ h h' op, allowed op → op.run h = some h' → P h → P h') :
    ∀ (ops : List Op) (h h' : Heap), (∀ op ∈ ops, allowed op) → run h ops = some h' →
      P h → P h' := by
  intro ops
  induction ops with
  | nil =>
    intro h h' _ hrun hP
    obtain rfl := Option.some.inj hrun
    exact hP
  | cons op ops ih =>
    intro h h' hall hrun hP
    simp only [run, Option.bind_eq_some] at hrun
    obtain ⟨h1, hop, hrest⟩ := hrun
    exact ih h1 h' (fun o ho => hall o (List.mem_cons_of_mem _ ho)) hrest
      (hstep h h1 op (hall op (List.mem_cons_self _ _)) hop hP)

/-- One call leaves every parent pointer pointing below its registry. -/
theorem Op_run_parents_below (h h' : Heap) (op : Op) (hrun : op.run h = some h')
    (hbelow : ∀ p r q, h.registry p = some r → r.parent_ = some q → q < p) :
    ∀ p r q, h'.registry p = some r → r.parent_ = some q → q < p := by
  cases op with
  | AddChildRegistry this name =>
    simp only [Op.run, Option.map_eq_some'] at hrun
    obtain ⟨⟨h'', result⟩, hadd, rfl⟩ := hrun
    obtain ⟨self, hself, ⟨-, rfl, -⟩ | ⟨c, -, rfl, -⟩⟩ :=
      AddChildRegistry_cases h h'' this name result hadd
    · intro p r q hr hq
      rcases getElem?_set_append_origin _ _ _ _ _ _ hr with
        ⟨rfl, rfl⟩ | ⟨-, hold⟩ | ⟨rfl, rfl⟩
      · exact hbelow p self q hself hq
      · exact hbelow p r q hold hq
      · obtain rfl : this = q := Option.some.inj hq
        exact Heap.registry_lt hself
    · exact hbelow
  | FindOrAddChildRegistry this name =>
    simp only [Op.run, Option.map_eq_some'] at hrun
    obtain ⟨⟨h'', c⟩, hcall, rfl⟩ := hrun
    obtain ⟨self, hself, ⟨-, rfl⟩ | ⟨-, rfl, -⟩⟩ :=
      FindOrAddChildRegistry_cases h h'' this name c hcall
    · exact hbelow
    · intro p r q hr hq
      rcases getElem?_set_append_origin _ _ _ _ _ _ hr with
        ⟨rfl, rfl⟩ | ⟨-, hold⟩ | ⟨rfl, rfl⟩
      · exact hbelow p self q hself hq
      · exact hbelow p r q hold hq
      · exact absurd hq (by simp [Registry.new])
  | Add T this name char_value string_value =>
    simp only [Op.run, Option.map_eq_some'] at hrun
    obtain ⟨⟨h'', result⟩, hadd, rfl⟩ := hrun
    rw [Add_eq_AddElementType] at hadd
    obtain ⟨self, hself, ⟨-, rfl, -⟩ | ⟨c, -, rfl, -⟩⟩ :=
      AddElementType_cases h h'' this _ result hadd
    · intro p r q hr hq
      rcases getElem?_set_cases _ _ _ _ _ hr with ⟨rfl, rfl⟩ | hold
      · exact hbelow p self q hself hq
      · exact hbelow p r q hold hq
    · exact hbelow
  | Assign element other =>
    simp only [Op.run] at hrun
    split at hrun
    · exact absurd hrun (by simp)
    · simp only [Option.map_eq_some'] at hrun
      obtain ⟨_, -, rfl⟩ := hrun
      exact hbelow
  | assignValue element other =>
    simp only [Op.run] at hrun
    split at hrun
    · exact absurd hrun (by simp)
    · simp only [Option.map_eq_some'] at hrun
      obtain ⟨_, -, rfl⟩ := hrun
      exact hbelow

/-- In a tree built from a freshly constructed root by calls of the public operations, every
parent pointer points below its registry, so `FullName` returns on every registry. -/
theorem run_root_parents_below (ops : List Op) (root_name : String) (h : Heap)
    (hrun : run (Heap.root root_name) ops = some h) :
    ∀ p r q, h.registry p = some r → r.parent_ = some q → q < p := by
  refine run_invariant
    (fun h => ∀ p r q, h.registry p = some r → r.parent_ = some q → q < p) (fun _ => True)
    (fun h h' op _ hop hP => Op_run_parents_below h h' op hop hP) ops _ h
    (fun _ _ => trivial) hrun ?_
  intro p r q hr hq
  have hmem := List.getElem?_mem hr
  obtain rfl : r = Registry.new root_name := by simpa [Heap.root] using hmem
  exact absurd hq (by simp [Registry.new])

/-- C13: the `FullName()` of a freshly constructed root named `N` is the sanitized `N`; and
in a tree built from a root by calls of the public operations, for every registry `R` and the
child `C` that a successful `R.AddChildRegistry(M)` returns, `R.FullName()` returns some
`full`, before and after the call, and `C.FullName()` returns `full + "." +` the sanitized
`M`, right after the call and after any later calls. -/
theorem FullName_of_AddChildRegistry (root_name M : String) (ops ops' : List Op)
    (h h' h'' : Heap) (R C : RegistryPtr)
    (hrun : run (Heap.root root_name) ops = some h)
    (hadd : AddChildRegistry h R M = some (h', .ok C))
    (hrun' : run h' ops' = some h'') :
    Registry.FullName (Heap.root root_name) 0 = some (sanitize root_name) ∧
      ∃ full, Registry.FullName h R = some full ∧ Registry.FullName h' R = some full ∧
        Registry.FullName h' C = some (full ++ "." ++ sanitize M) ∧
        Registry.FullName h'' C = some (full ++ "." ++ sanitize M) := by
  refine ⟨rfl, ?_⟩
  obtain ⟨self, hself, ⟨hfree, rfl, hC⟩ | ⟨_, _, _, hbad⟩⟩ :=
    AddChildRegistry_cases h h' R M _ hadd
  swap
  · exact absurd hbad (by simp)
  obtain rfl : C = h.registries.length := Except.ok.inj hC
  have hlt := Heap.registry_lt hself
  obtain ⟨full, hfull⟩ :=
    FullName_defined h (run_root_parents_below ops root_name h hrun) R self hself
  have hext := AddChildRegistry_extends h _ R M _ hadd
  have hwalk' := FullNameWalk_extends h _ hext _ R full hfull
  have hC' : FullNameWalk
      { registries :=
          (h.registries.set R
            { self with child_registries_ :=
                self.child_registries_ ++ [(sanitize M, h.registries.length)] }) ++
            [{ Registry.new M with parent_ := some R }]
        elements := h.elements }
      (h.registries.length + 1) h.registries.length = some (full ++ "." ++ sanitize M) := by
    rw [FullNameWalk]
    simp only [Heap.registry, getElem?_set_append_length]
    show Option.map _ (FullNameWalk _ h.registries.length R) = _
    rw [hwalk']
    rfl
  refine ⟨full, hfull, ?_, ?_, ?_⟩
  · exact FullNameWalk_mono _ _ _ (by simp) R full hwalk'
  · show FullNameWalk _ (List.length _) _ = _
    simp only [List.length_append, List.length_set, List.length_singleton]
    exact hC'
  · have hext' := run_extends ops' _ h'' hrun'
    obtain ⟨child, hchild, -⟩ := hext' h.registries.length _
      (getElem?_set_append_length h.registries R _ _)
    exact FullNameWalk_mono _ _ _ (Heap.registry_lt hchild) _ _
      (FullNameWalk_extends _ h'' hext' _ _ _ hC')

/-- C13 on the example of the spec: the root `"app"` and its child `"rpc"`. -/
theorem FullName_of_AddChildRegistry_witness :
    Registry.FullName (Heap.root "app") 0 = some (sanitize "app") ∧
      ∃ full, Registry.FullName (Heap.root "app") 0 = some full ∧
        Registry.FullName
          { registries :=
              [{ name_ := "app", parent_ := none, child_registries_ := [("rpc", 1)],
                 elements_ := [] },
               { name_ := "rpc", parent_ := some 0, child_registries_ := [],
                 elements_ := [] }]
            elements := [] }
          0 = some full ∧
        Registry.FullName
          { registries :=
              [{ name_ := "app", parent_ := none, child_registries_ := [("rpc", 1)],
                 elements_ := [] },
               { name_ := "rpc", parent_ := some 0, child_registries_ := [],
                 elements_ := [] }]
            elements := [] }
          1 = some (full ++ "." ++ sanitize "rpc") ∧
        Registry.FullName
          { registries :=
              [{ name_ := "app", parent_ := none, child_registries_ := [("rpc", 1)],
                 elements_ := [] },
               { name_ := "rpc", parent_ := some 0, child_registries_ := [],
                 elements_ := [] }]
            elements := [] }
          1 = some (full ++ "." ++ sanitize "rpc") :=
  FullName_of_AddChildRegistry "app" "rpc" [] [] (Heap.root "app")
    { registries :=
        [{ name_ := "app", parent_ := none, child_registries_ := [("rpc", 1)],
           elements_ := [] },
         { name_ := "rpc", parent_ := some 0, child_registries_ := [], elements_ := [] }]
      elements := [] }
    { registries :=
        [{ name_ := "app", parent_ := none, child_registries_ := [("rpc", 1)],
           elements_ := [] },
         { name_ := "rpc", parent_ := some 0, child_registries_ := [], elements_ := [] }]
      elements := [] }
    0 1 (by decide) (by decide) (by decide)

/-- The full names of the example of the spec: `"app"` for the root and `"app.rpc"` for its
child. -/
theorem FullName_spec_example :
    Registry.FullName (Heap.root "app") 0 = some "app" ∧
      Registry.FullName
        { registries :=
            [{ name_ := "app", parent_ := none, child_registries_ := [("rpc", 1)],
               elements_ := [] },
             { name_ := "rpc", parent_ := some 0, child_registries_ := [],
               elements_ := [] }]
          elements := [] }
        1 = some "app.rpc" := by
  decide

/-! ## The links of a tree built by `AddChildRegistry` and `Add<T>` -/

theorem getElem?_append_singleton_origin {α : Type} (l : List α) (p : Nat) (b x : α)
    (hx : (l ++ [b])[p]? = some x) : l[p]? = some x ∨ (p = l.length ∧ x = b) := by
  by_cases hp : p < l.length
  · rw [List.getElem?_append_left hp] at hx
    exact Or.inl hx
  · have hlen := (List.getElem?_eq_some.mp hx).1
    simp only [List.length_append, List.length_singleton] at hlen
    have hpl : p = l.length := by omega
    subst hpl
    rw [List.getElem?_concat_length] at hx
    exact Or.inr ⟨rfl, (Option.some.inj hx).symm⟩

/-- The generic `Assign` keeps the name and the owner of the element. -/
theorem Element.Assign_keeps (e e' : Element) (other : Value) (flag : Bool)
    (hassign : e.Assign other = some (flag, e')) :
    e'.name_ = e.name_ ∧ e'.registry_ = e.registry_ := by
  unfold Element.Assign at hassign
  split at hassign
  · obtain ⟨-, rfl⟩ := Prod.mk.inj (Option.some.inj hassign)
    exact ⟨rfl, rfl⟩
  · simp only [Element.AssignRaw, Option.map_map, Option.map_eq_some'] at hassign
    obtain ⟨v, -, hv⟩ := hassign
    obtain ⟨-, rfl⟩ := Prod.mk.inj hv
    exact ⟨rfl, rfl⟩

/-- The operator `=` keeps the name and the owner of the element. -/
theorem Element.assignValue_keeps (e e' : Element) (other : Value)
    (hassign : e.assignValue other = some e') :
    e'.name_ = e.name_ ∧ e'.registry_ = e.registry_ := by
  unfold Element.assignValue at hassign
  split at hassign
  · obtain rfl := Option.some.inj hassign
    exact ⟨rfl, rfl⟩
  · exact absurd hassign (by simp)

/-- A freshly constructed root is linked. -/
theorem Heap.root_linked (root_name : String) : (Heap.root root_name).Linked := by
  have hroot : ∀ p r, (Heap.root root_name).registry p = some r →
      p = 0 ∧ r = Registry.new root_name := by
    intro p r hr
    have hlt := Heap.registry_lt hr
    have hp : p = 0 := by simpa [Heap.root] using hlt
    subst hp
    exact ⟨rfl, (Option.some.inj hr).symm⟩
  refine ⟨?_, ?_, ?_, ?_, ?_⟩
  · intro p r hr _
    exact (hroot p r hr).1
  · intro p r q hr hq
    obtain ⟨-, rfl⟩ := hroot p r hr
    exact absurd hq (by simp [Registry.new])
  · intro e object he
    exact absurd he (by simp [Heap.element, Heap.root])
  · intro p r hr
    obtain ⟨-, rfl⟩ := hroot p r hr
    exact sanitize_no_separator root_name
  · intro e object he
    exact absurd he (by simp [Heap.element, Heap.root])

/-- The links of a heap whose registries extend those of a linked heap, given where each
registry and each element of the new heap comes from. -/
theorem Heap.Linked_of_extends (h h' : Heap) (hL : h.Linked) (hext : h.Extends h')
    (hregs : ∀ p r', h'.registry p = some r' →
      (∃ r, h.registry p = some r ∧ r'.name_ = r.name_ ∧ r'.parent_ = r.parent_) ∨
      (∃ q parent, r'.parent_ = some q ∧ q < p ∧ h'.registry q = some parent ∧
        parent.child_registries_.find r'.name = some p ∧
        internal.kNamespaceCharacter ∉ r'.name.data))
    (helems : ∀ e object', h'.element e = some object' →
      (∃ object, h.element e = some object ∧ object'.name_ = object.name_ ∧
        object'.registry_ = object.registry_) ∨
      (∃ p r, object'.registry_ = some p ∧ h'.registry p = some r ∧
        r.elements_.find object'.name = some e ∧
        internal.kNamespaceCharacter ∉ object'.name.data)) :
    h'.Linked := by
  refine ⟨?_, ?_, ?_, ?_, ?_⟩
  · intro p r' hr' hparent
    rcases hregs p r' hr' with ⟨r, hr, -, hp⟩ | ⟨q, _, hq, -⟩
    · exact hL.root_of_no_parent p r hr (hp ▸ hparent)
    · rw [hparent] at hq
      exact absurd hq (by simp)
  · intro p r' q hr' hparent
    rcases hregs p r' hr' with ⟨r, hr, hn, hp⟩ | ⟨q', parent, hq', hlt, hparent', hfind, -⟩
    · obtain ⟨hlt, parent, hq, hfind⟩ := hL.parent_link p r q hr (hp ▸ hparent)
      obtain ⟨parent', hq', hextq⟩ := hext q parent hq
      refine ⟨hlt, parent', hq', hextq.2.2.1 _ _ ?_⟩
      show parent.child_registries_.find r'.name_ = some p
      rw [hn]
      exact hfind
    · rw [hparent] at hq'
      obtain rfl := Option.some.inj hq'
      exact ⟨hlt, parent, hparent', hfind⟩
  · intro e object' he'
    rcases helems e object' he' with ⟨object, he, hn, ho⟩ | ⟨p, r, ho, hr, hfind, -⟩
    · obtain ⟨p, r, howner, hr, hfind⟩ := hL.owner_link e object he
      obtain ⟨r', hr', hextr⟩ := hext p r hr
      refine ⟨p, r', ho.trans howner, hr', hextr.2.2.2 _ _ ?_⟩
      show r.elements_.find object'.name_ = some e
      rw [hn]
      exact hfind
    · exact ⟨p, r, ho, hr, hfind⟩
  · intro p r' hr'
    rcases hregs p r' hr' with ⟨r, hr, hn, -⟩ | ⟨_, _, -, -, -, -, hsep⟩
    · show internal.kNamespaceCharacter ∉ r'.name_.data
      rw [hn]
      exact hL.registry_names p r hr
    · exact hsep
  · intro e object' he'
    rcases helems e object' he' with ⟨object, he, hn, -⟩ | ⟨_, _, -, -, -, hsep⟩
    · show internal.kNamespaceCharacter ∉ object'.name_.data
      rw [hn]
      exact hL.element_names e object he
    · exact hsep

/-- Every call other than `FindOrAddChildRegistry` keeps the heap linked. -/
theorem Op_run_linked (h h' : Heap) (op : Op) (hop : op.isFindOrAddChildRegistry = false)
    (hrun : op.run h = some h') (hL : h.Linked) : h'.Linked := by
  cases op with
  | FindOrAddChildRegistry this name => exact absurd hop (by simp [Op.isFindOrAddChildRegistry])
  | AddChildRegistry this name =>
    simp only [Op.run, Option.map_eq_some'] at hrun
    obtain ⟨⟨h'', result⟩, hadd, rfl⟩ := hrun
    have hext := AddChildRegistry_extends h h'' this name result hadd
    obtain ⟨self, hself, ⟨hfree, rfl, -⟩ | ⟨c, -, rfl, -⟩⟩ :=
      AddChildRegistry_cases h h'' this name result hadd
    swap
    · exact hL
    have hlt := Heap.registry_lt hself
    refine Heap.Linked_of_extends h _ hL hext ?_ ?_
    · intro p r' hr'
      rcases getElem?_set_append_origin _ _ _ _ _ _ hr' with
        ⟨rfl, rfl⟩ | ⟨-, hold⟩ | ⟨rfl, rfl⟩
      · exact Or.inl ⟨self, hself, rfl, rfl⟩
      · exact Or.inl ⟨r', hold, rfl, rfl⟩
      · exact Or.inr ⟨this, _, rfl, hlt, getElem?_set_append_self _ _ _ _ hlt,
          UnorderedMap.find_append_self _ _ _ hfree, sanitize_no_separator name⟩
    · intro e object' he'
      exact Or.inl ⟨object', he', rfl, rfl⟩
  | Add T this name char_value string_value =>
    simp only [Op.run, Option.map_eq_some'] at hrun
    obtain ⟨⟨h'', result⟩, hadd, rfl⟩ := hrun
    rw [Add_eq_AddElementType] at hadd
    have hext := AddElementType_extends h h'' this _ result hadd
    obtain ⟨self, hself, ⟨hfree, rfl, -⟩ | ⟨c, -, rfl, -⟩⟩ :=
      AddElementType_cases h h'' this _ result hadd
    swap
    · exact hL
    have hlt := Heap.registry_lt hself
    refine Heap.Linked_of_extends h _ hL hext ?_ ?_
    · intro p r' hr'
      rcases getElem?_set_cases _ _ _ _ _ hr' with ⟨rfl, rfl⟩ | hold
      · exact Or.inl ⟨self, hself, rfl, rfl⟩
      · exact Or.inl ⟨r', hold, rfl, rfl⟩
    · intro e object' he'
      rcases getElem?_append_singleton_origin _ _ _ _ he' with hold | ⟨rfl, rfl⟩
      · exact Or.inl ⟨object', hold, rfl, rfl⟩
      · refine Or.inr ⟨this,
          { self with elements_ := self.elements_ ++
              [((ElementTemplate.mk T name (initialValue T char_value string_value)).name,
                h.elements.length)] },
          rfl, ?_, UnorderedMap.find_append_self _ _ _ hfree, sanitize_no_separator name⟩
        simp only [Heap.registry, List.getElem?_set_self hlt]
  | Assign element other =>
    simp only [Op.run] at hrun
    split at hrun
    · exact absurd hrun (by simp)
    · rename_i object hobject
      simp only [Option.map_eq_some'] at hrun
      obtain ⟨⟨flag, object'⟩, hassign, rfl⟩ := hrun
      obtain ⟨hn, ho⟩ := Element.Assign_keeps object object' other flag hassign
      refine Heap.Linked_of_extends h _ hL (Heap.Extends_of_registries_eq h _ rfl) ?_ ?_
      · intro p r' hr'
        exact Or.inl ⟨r', hr', rfl, rfl⟩
      · intro e object'' he'
        rcases getElem?_set_cases _ _ _ _ _ he' with ⟨rfl, rfl⟩ | hold
        · exact Or.inl ⟨object, hobject, hn, ho⟩
        · exact Or.inl ⟨object'', hold, rfl, rfl⟩
  | assignValue element other =>
    simp only [Op.run] at hrun
    split at hrun
    · exact absurd hrun (by simp)
    · rename_i object hobject
      simp only [Option.map_eq_some'] at hrun
      obtain ⟨object', hassign, rfl⟩ := hrun
      obtain ⟨hn, ho⟩ := Element.assignValue_keeps object object' other hassign
      refine Heap.Linked_of_extends h _ hL (Heap.Extends_of_registries_eq h _ rfl) ?_ ?_
      · intro p r' hr'
        exact Or.inl ⟨r', hr', rfl, rfl⟩
      · intro e object'' he'
        rcases getElem?_set_cases _ _ _ _ _ he' with ⟨rfl, rfl⟩ | hold
        · exact Or.inl ⟨object, hobject, hn, ho⟩
        · exact Or.inl ⟨object'', hold, rfl, rfl⟩

/-- A tree built from a freshly constructed root by calls other than
`FindOrAddChildRegistry` is linked. -/
theorem run_root_linked (ops : List Op) (root_name : String) (h : Heap)
    (hops : ∀ op ∈ ops, op.isFindOrAddChildRegistry = false)
    (hrun : run (Heap.root root_name) ops = some h) : h.Linked :=
  run_invariant Heap.Linked (fun op => op.isFindOrAddChildRegistry = false)
    (fun h h' op hop hstep hL => Op_run_linked h h' op hop hstep hL) ops _ h hops hrun
    (Heap.root_linked root_name)

/-! ## `FullName` and path resolution -/

/-- From a registry that holds `p` under `key`, a key other than its own name and without
separator, resolving `key + "." + t` is resolving `t` from `p`. -/
theorem FindElementByExtendedName_child_step (h : Heap) (q p : RegistryPtr)
    (parent : Registry) (key t : String) (hq : h.registry q = some parent)
    (hfind : parent.child_registries_.find key = some p) (hne : key ≠ parent.name)
    (hsep : internal.kNamespaceCharacter ∉ key.data) :
    FindElementByExtendedName h q (key ++ "." ++ t) = FindElementByExtendedName h p t := by
  have hchild : FindChildRegistry h q (String.mk key.data) = some (.ok p) := by
    show FindChildRegistry h q key = some (.ok p)
    simp only [FindChildRegistry, hq, hfind]
  have hne' : ¬ String.mk key.data = parent.name := hne
  rw [path_eq, FindElementByExtendedName_segment h q _ _ hsep, hq]
  simp only [hne', if_false, hchild]

/-- From a registry whose name has no separator, resolving its name, `"."` and `t` is
resolving `t`. -/
theorem FindElementByExtendedName_self_step (h : Heap) (p : RegistryPtr) (self : Registry)
    (t : String) (hself : h.registry p = some self)
    (hsep : internal.kNamespaceCharacter ∉ self.name.data) :
    FindElementByExtendedName h p (self.name ++ "." ++ t) =
      FindElementByExtendedName h p t := by
  rw [path_eq, FindElementByExtendedName_segment h p _ _ hsep, hself]
  simp

/-- In a linked heap, for a registry `p` none of whose ancestors is named as its parent:
the walk of `FullName` from `p` returns, and resolving the full name of `p`, `"."` and `t`
from the root is resolving `t` from `p`. -/
theorem FindElementByExtendedName_of_FullName (h : Heap) (hL : h.Linked) (p : RegistryPtr)
    (hp : h.DistinctPath p) :
    ∃ full, FullNameWalk h (p + 1) p = some full ∧
      ∀ t : String, FindElementByExtendedName h 0 (full ++ "." ++ t) =
        FindElementByExtendedName h p t := by
  induction hp with
  | root p self hself hparent =>
    obtain rfl := hL.root_of_no_parent p self hself hparent
    refine ⟨self.name, ?_, ?_⟩
    · rw [FullNameWalk]
      simp only [hself, hparent]
    · intro t
      exact FindElementByExtendedName_self_step h 0 self t hself
        (hL.registry_names 0 self hself)
  | child p q self parent hself hparent hq hname _ ih =>
    obtain ⟨above, hwalk, hresolve⟩ := ih
    obtain ⟨hlt, parent', hq', hfind⟩ := hL.parent_link p self q hself hparent
    rw [hq] at hq'
    obtain rfl := Option.some.inj hq'
    refine ⟨above ++ "." ++ self.name, ?_, ?_⟩
    · rw [FullNameWalk]
      simp only [hself, hparent, FullNameWalk_mono h (q + 1) p hlt q above hwalk,
        Option.map_some']
    · intro t
      have hassoc : above ++ "." ++ self.name ++ "." ++ t =
          above ++ "." ++ (self.name ++ "." ++ t) := by
        simp only [String.append_assoc]
      rw [hassoc, hresolve]
      exact FindElementByExtendedName_child_step h q p parent self.name t hq hfind hname
        (hL.registry_names p self hself)

/-- C20, as amended: in a tree built from a freshly constructed root by calls of
`AddChildRegistry` and `Add<T>` (and assignments to elements), every element `e` has an
owning registry, the `FullName()` of the owner returns some `full`, and `e.FullName()` is
`full + "." + e.name()`; and when no registry on the path from the root to the owner has the
name of its parent, `FindElementByExtendedName(e.FullName())` on the root succeeds and
returns `e`. -/
theorem FullName_round_trip (root_name : String) (ops : List Op) (h : Heap) (e : ElementPtr)
    (object : Element) (hops : ∀ op ∈ ops, op.isFindOrAddChildRegistry = false)
    (hrun : run (Heap.root root_name) ops = some h) (he : h.element e = some object) :
    ∃ owner full, object.registry_ = some owner ∧ Registry.FullName h owner = some full ∧
      Element.FullName h object = some (full ++ "." ++ object.name) ∧
      (h.DistinctPath owner →
        FindElementByExtendedName h 0 (full ++ "." ++ object.name) = some (.ok e)) := by
  have hL := run_root_linked ops root_name h hops hrun
  obtain ⟨owner, r, howner, hr, hfind⟩ := hL.owner_link e object he
  obtain ⟨full, hfull⟩ := FullName_defined h
    (fun p r q hp hq => (hL.parent_link p r q hp hq).1) owner r hr
  refine ⟨owner, full, howner, hfull, ?_, ?_⟩
  · simp only [Element.FullName, howner, hfull, Option.map_some']
  · intro hpath
    obtain ⟨full', hwalk, hresolve⟩ := FindElementByExtendedName_of_FullName h hL owner hpath
    have hfull' : Registry.FullName h owner = some full' :=
      FullNameWalk_mono h (owner + 1) _ (Heap.registry_lt hr) owner full' hwalk
    rw [hfull] at hfull'
    obtain rfl := Option.some.inj hfull'
    rw [hresolve, FindElementByExtendedName_leaf h owner _ (hL.element_names e object he)]
    simp only [FindElement, hr, hfind]

/-- C20 on the example of the spec: the element `"timeout"` of the child `"rpc"` of the root
`"app"`. -/
theorem FullName_round_trip_witness :
    ∃ owner full,
      Element.registry_
          { name_ := "timeout", type_ := .kDouble, registry_ := some 1, value_ := .double 0 } =
        some owner ∧
      Registry.FullName
        { registries :=
            [{ name_ := "app", parent_ := none, child_registries_ := [("rpc", 1)],
               elements_ := [] },
             { name_ := "rpc", parent_ := some 0, child_registries_ := [],
               elements_ := [("timeout", 0)] }]
          elements :=
            [{ name_ := "timeout", type_ := .kDouble, registry_ := some 1,
               value_ := .double 0 }] }
        owner = some full ∧
      Element.FullName
        { registries :=
            [{ name_ := "app", parent_ := none, child_registries_ := [("rpc", 1)],
               elements_ := [] },
             { name_ := "rpc", parent_ := some 0, child_registries_ := [],
               elements_ := [("timeout", 0)] }]
          elements :=
            [{ name_ := "timeout", type_ := .kDouble, registry_ := some 1,
               value_ := .double 0 }] }
        { name_ := "timeout", type_ := .kDouble, registry_ := some 1, value_ := .double 0 } =
        some (full ++ "." ++ "timeout") ∧
      FindElementByExtendedName
        { registries :=
            [{ name_ := "app", parent_ := none, child_registries_ := [("rpc", 1)],
               elements_ := [] },
             { name_ := "rpc", parent_ := some 0, child_registries_ := [],
               elements_ := [("timeout", 0)] }]
          elements :=
            [{ name_ := "timeout", type_ := .kDouble, registry_ := some 1,
               value_ := .double 0 }] }
        0 (full ++ "." ++ "timeout") = some (.ok 0) := by
  obtain ⟨owner, full, howner, hfull, hname, hresolve⟩ :=
    FullName_round_trip "app" [Op.AddChildRegistry 0 "rpc", Op.Add .double 1 "timeout" 'a' ""]
        { registries :=
            [{ name_ := "app", parent_ := none, child_registries_ := [("rpc", 1)],
               elements_ := [] },
             { name_ := "rpc", parent_ := some 0, child_registries_ := [],
               elements_ := [("timeout", 0)] }]
          elements :=
            [{ name_ := "timeout", type_ := .kDouble, registry_ := some 1,
               value_ := .double 0 }] }
      0 { name_ := "timeout", type_ := .kDouble, registry_ := some 1, value_ := .double 0 }
      (by decide) (by decide) (by decide)
  obtain rfl : 1 = owner := Option.some.inj howner
  exact ⟨1, full, rfl, hfull, hname,
    hresolve
      (Heap.DistinctPath.child 1 0
        { name_ := "rpc", parent_ := some 0, child_registries_ := [],
          elements_ := [("timeout", 0)] }
        { name_ := "app", parent_ := none, child_registries_ := [("rpc", 1)],
          elements_ := [] }
        (by decide) rfl (by decide) (by decide)
        (Heap.DistinctPath.root 0
          { name_ := "app", parent_ := none, child_registries_ := [("rpc", 1)],
            elements_ := [] }
          (by decide) rfl))⟩

/-- C20 as stated fails: the root `"a"`, its child `"a"` added by `AddChildRegistry` and the
boolean element `"x"` of the child added by `AddBoolean`; the `FullName()` of the element is
`"a.a.x"`, and `FindElementByExtendedName("a.a.x")` on the root fails with `kNotFound`. -/
theorem FullName_round_trip_fails_under_same_name :
    run (Heap.root "a") [Op.AddChildRegistry 0 "a", Op.Add .bool 1 "x" 'a' ""] =
      some
        { registries :=
            [{ name_ := "a", parent_ := none, child_registries_ := [("a", 1)],
               elements_ := [] },
             { name_ := "a", parent_ := some 0, child_registries_ := [],
               elements_ := [("x", 0)] }]
          elements :=
            [{ name_ := "x", type_ := .kBoolean, registry_ := some 1,
               value_ := .bool false }] } ∧
      Heap.element
        { registries :=
            [{ name_ := "a", parent_ := none, child_registries_ := [("a", 1)],
               elements_ := [] },
             { name_ := "a", parent_ := some 0, child_registries_ := [],
               elements_ := [("x", 0)] }]
          elements :=
            [{ name_ := "x", type_ := .kBoolean, registry_ := some 1,
               value_ := .bool false }] }
        0 =
        some { name_ := "x", type_ := .kBoolean, registry_ := some 1, value_ := .bool false } ∧
      Element.FullName
        { registries :=
            [{ name_ := "a", parent_ := none, child_registries_ := [("a", 1)],
               elements_ := [] },
             { name_ := "a", parent_ := some 0, child_registries_ := [],
               elements_ := [("x", 0)] }]
          elements :=
            [{ name_ := "x", type_ := .kBoolean, registry_ := some 1,
               value_ := .bool false }] }
        { name_ := "x", type_ := .kBoolean, registry_ := some 1, value_ := .bool false } =
        some "a.a.x" ∧
      FindElementByExtendedName
        { registries :=
            [{ name_ := "a", parent_ := none, child_registries_ := [("a", 1)],
               elements_ := [] },
             { name_ := "a", parent_ := some 0, child_registries_ := [],
               elements_ := [("x", 0)] }]
          elements :=
            [{ name_ := "x", type_ := .kBoolean, registry_ := some 1,
               value_ := .bool false }] }
        0 "a.a.x" = some (.error .kNotFound) := by
  refine ⟨by decide, by decide, by decide, ?_⟩
  rw [FindElementByExtendedName_eq_steps _ 8 _ _ (by decide)]
  decide

/-- The names of `ChildRegistryNamesTest`: after `AddChildRegistry` with `"child1"` to
`"child4"` on the registry `"parent_registry"`, `GetChildRegistryNames()` holds the four
names. -/
theorem GetChildRegistryNames_test_example :
    (run (Heap.root "parent_registry")
        [Op.AddChildRegistry 0 "child1", Op.AddChildRegistry 0 "child2",
         Op.AddChildRegistry 0 "child3", Op.AddChildRegistry 0 "child4"]).bind
      (fun h => GetChildRegistryNames h 0) =
      some ["child1", "child2", "child3", "child4"] := by
  decide

/-! ## The depth of the recursion of `FindElementByExtendedName` -/

/-- A string without `c`, or its part before the first `c` and its part after it. -/
theorem exists_first_occurrence (s : List Char) (c : Char) :
    c ∉ s ∨ ∃ pre rest, c ∉ pre ∧ s = pre ++ c :: rest := by
  induction s with
  | nil => exact Or.inl (by simp)
  | cons x xs ih =>
    by_cases hx : x = c
    · subst hx
      exact Or.inr ⟨[], xs, by simp, rfl⟩
    · rcases ih with hnot | ⟨pre, rest, hpre, rfl⟩
      · exact Or.inl (by simp [hnot, Ne.symm hx])
      · exact Or.inr ⟨x :: pre, rest, by simp [hpre, Ne.symm hx], rfl⟩

/-- When `std::find` meets `c`, the string is the part before, `c`, and the part after. -/
theorem stdFind_inv (s pre rest : List Char) (c x : Char)
    (hfind : stdFind s c = (pre, x :: rest)) : c ∉ pre ∧ x = c ∧ s = pre ++ c :: rest := by
  rcases exists_first_occurrence s c with hnot | ⟨pre', rest', hpre', rfl⟩
  · rw [stdFind_of_not_mem s c hnot] at hfind
    exact absurd (congrArg Prod.snd hfind) (by simp)
  · rw [stdFind_append pre' rest' c hpre'] at hfind
    obtain ⟨rfl, htail⟩ := Prod.mk.inj hfind
    obtain ⟨rfl, rfl⟩ := List.cons.inj htail
    exact ⟨hpre', rfl, rfl⟩

/-- The path that a recursive call receives is shorter and has one `'.'` less. -/
theorem stdFind_rest_smaller (p : String) (pre rest : List Char) (x : Char)
    (hfind : stdFind p.data internal.kNamespaceCharacter = (pre, x :: rest)) :
    (String.mk rest).length < p.length ∧ dotCount (String.mk rest) + 1 = dotCount p := by
  obtain ⟨hpre, -, hp⟩ := stdFind_inv p.data pre rest _ x hfind
  constructor
  · show rest.length < p.data.length
    rw [hp]
    simp
    omega
  · show rest.count internal.kNamespaceCharacter + 1 = p.data.count internal.kNamespaceCharacter
    rw [hp, List.count_append, List.count_cons_self, List.count_eq_zero_of_not_mem hpre]
    omega

/-- With a bound above the number of `'.'` of the path, the bounded method is the method. -/
theorem FindElementByExtendedNameFuel_eq (h : Heap) (fuel : Nat) :
    ∀ (this : RegistryPtr) (search_name : String), dotCount search_name < fuel →
      FindElementByExtendedNameFuel h fuel this search_name =
        some (FindElementByExtendedName h this search_name) := by
  induction fuel with
  | zero => intro _ _ hlt; omega
  | succ fuel ih =>
    intro this search_name hlt
    rw [FindElementByExtendedName_eq, FindElementByExtendedNameFuel]
    rcases hfind : stdFind search_name.data internal.kNamespaceCharacter with
      ⟨pre, _ | ⟨c, rest⟩⟩
    · rfl
    · have hrest : dotCount (String.mk rest) < fuel := by
        have hsmaller := (stdFind_rest_smaller search_name pre rest c hfind).2
        omega
      simp only [ih _ _ hrest]
      cases h.registry this with
      | none => rfl
      | some self =>
        simp only
        split
        · rfl
        · cases FindChildRegistry h this (String.mk pre) with
          | none => rfl
          | some found =>
            cases found with
            | error err => rfl
            | ok child => rfl

/-- C22: on every registry of every heap and every path, `FindElementByExtendedName` with
its recursion bounded by the number of `'.'` of the path plus one gives a result, the one of
the method, which recurses on the length of the path; and the path that a recursive call
receives, on the same node or on a child, is strictly shorter and has one `'.'` less. -/
theorem FindElementByExtendedName_terminates (h : Heap) (this : RegistryPtr)
    (search_name : String) :
    FindElementByExtendedNameFuel h (dotCount search_name + 1) this search_name =
        some (FindElementByExtendedName h this search_name) ∧
      ∀ (registry_name rest : List Char) (x : Char),
        stdFind search_name.data internal.kNamespaceCharacter = (registry_name, x :: rest) →
        (String.mk rest).length < search_name.length ∧
          dotCount (String.mk rest) + 1 = dotCount search_name :=
  ⟨FindElementByExtendedNameFuel_eq h _ this search_name (Nat.lt_succ_self _),
    fun registry_name rest x hfind =>
      stdFind_rest_smaller search_name registry_name rest x hfind⟩

/-- C22 on the node named `"a"` and the path `"a.a.a.x"`: the bound is `4`, and the first
recursive call receives `"a.a.x"`. -/
theorem FindElementByExtendedName_terminates_witness :
    FindElementByExtendedNameFuel (Heap.root "a") (dotCount "a.a.a.x" + 1) 0 "a.a.a.x" =
        some (FindElementByExtendedName (Heap.root "a") 0 "a.a.a.x") ∧
      (String.mk "a.a.x".data).length < "a.a.a.x".length ∧
      dotCount (String.mk "a.a.x".data) + 1 = dotCount "a.a.a.x" :=
  ⟨(FindElementByExtendedName_terminates (Heap.root "a") 0 "a.a.a.x").1,
    (FindElementByExtendedName_terminates (Heap.root "a") 0 "a.a.a.x").2 "a".data
      "a.a.x".data '.' (by decide)⟩

/-- The two examples of C22. On the node named `"a"` the path `"a.a.a.x"` is resolved by four
nested calls and no fewer, with the result `kNotFound`; on a node with the empty name the
path `"..x"` is resolved by three. -/
theorem FindElementByExtendedName_depth_examples :
    FindElementByExtendedNameFuel (Heap.root "a") 4 0 "a.a.a.x" =
        some (some (.error .kNotFound)) ∧
      FindElementByExtendedNameFuel (Heap.root "a") 3 0 "a.a.a.x" = none ∧
      (Heap.root "<>").registry 0 =
        some { name_ := "", parent_ := none, child_registries_ := [], elements_ := [] } ∧
      FindElementByExtendedNameFuel (Heap.root "<>") 3 0 "..x" =
        some (some (.error .kNotFound)) ∧
      FindElementByExtendedNameFuel (Heap.root "<>") 2 0 "..x" = none := by
  decide

/-! ## A path whose last segment names no element -/

theorem UnorderedMap.find_mem {V : Type} (m : UnorderedMap V) (key : String) (v : V)
    (hfind : UnorderedMap.find m key = some v) : (key, v) ∈ m := by
  induction m with
  | nil => simp [UnorderedMap.find] at hfind
  | cons entry rest ih =>
    obtain ⟨k, x⟩ := entry
    simp only [UnorderedMap.find] at hfind
    split at hfind
    · rename_i hk
      obtain rfl := Option.some.inj hfind
      subst hk
      exact List.mem_cons_self _ _
    · exact List.mem_cons_of_mem _ (ih hfind)

theorem takeWhile_append_stop {α : Type} (f : α → Bool) (l1 l2 : List α) (c : α)
    (hc : f c = false) : (l1 ++ c :: l2).takeWhile f = l1.takeWhile f := by
  induction l1 with
  | nil => simp [List.takeWhile_cons, hc]
  | cons x xs ih =>
    simp only [List.cons_append, List.takeWhile_cons]
    split
    · rw [ih]
    · rfl

/-- A path without `'.'` is its own last segment. -/
theorem lastSegment_of_no_separator (path : String)
    (hpath : internal.kNamespaceCharacter ∉ path.data) : lastSegment path = path := by
  have htake : path.data.reverse.takeWhile (fun c => c != internal.kNamespaceCharacter) =
      path.data.reverse := by
    rw [List.takeWhile_eq_self_iff]
    intro c hc
    have hne : c ≠ internal.kNamespaceCharacter := fun heq =>
      hpath (heq ▸ List.mem_reverse.mp hc)
    simpa using hne
  show String.mk (List.reverse (List.takeWhile _ _)) = path
  rw [htake, List.reverse_reverse]

/-- The last segment of a path is the last segment of what follows its first `'.'`. -/
theorem lastSegment_after_separator (pre rest : List Char) :
    lastSegment (String.mk (pre ++ internal.kNamespaceCharacter :: rest)) =
      lastSegment (String.mk rest) := by
  have hrev : (pre ++ internal.kNamespaceCharacter :: rest).reverse =
      rest.reverse ++ internal.kNamespaceCharacter :: pre.reverse := by
    simp
  show String.mk (List.reverse (List.takeWhile _ (List.reverse _))) =
    String.mk (List.reverse (List.takeWhile _ (List.reverse _)))
  rw [hrev, takeWhile_append_stop _ _ _ _ (by simp)]

/-- The subtree of a child is in the subtree of its parent. -/
theorem Heap.InSubtree_of_child (h : Heap) (R c q : RegistryPtr) (node : Registry)
    (key : String) (hnode : h.registry R = some node)
    (hentry : (key, c) ∈ node.child_registries_) (hq : h.InSubtree c q) : h.InSubtree R q := by
  induction hq with
  | self => exact Heap.InSubtree.child R c node key Heap.InSubtree.self hnode hentry
  | child q' c' node' key' _ hnode' hentry' ih =>
    exact Heap.InSubtree.child q' c' node' key' ih hnode' hentry'

/-- In a heap whose maps hold live objects under their names: from a live registry `R`,
`FindElementByExtendedName` returns `kNotFound`, or returns an element of a registry of the
subtree of `R` whose name is the last segment of the path. -/
theorem FindElementByExtendedName_outcome (h : Heap) (hO : h.Owned) (n : Nat) :
    ∀ (path : String) (R : RegistryPtr) (node : Registry), path.length < n →
      h.registry R = some node →
      FindElementByExtendedName h R path = some (.error .kNotFound) ∨
        ∃ q holder e object, h.InSubtree R q ∧ h.registry q = some holder ∧
          (lastSegment path, e) ∈ holder.elements_ ∧ h.element e = some object ∧
          object.name = lastSegment path ∧
          FindElementByExtendedName h R path = some (.ok e) := by
  induction n with
  | zero => intro _ _ _ hlt; omega
  | succ n ih =>
    intro path R node hlt hnode
    rw [FindElementByExtendedName_eq]
    rcases hfind : stdFind path.data internal.kNamespaceCharacter with
      ⟨pre, _ | ⟨x, rest⟩⟩
    · -- the path is a leaf name
      have hsep : internal.kNamespaceCharacter ∉ path.data := by
        rcases exists_first_occurrence path.data internal.kNamespaceCharacter with
          hnot | ⟨pre', rest', hpre', hp⟩
        · exact hnot
        · rw [hp, stdFind_append pre' rest' _ hpre'] at hfind
          exact absurd (congrArg Prod.snd hfind) (by simp)
      simp only [FindElement, hnode]
      cases hkey : node.elements_.find path with
      | none => exact Or.inl rfl
      | some e =>
        have hmem := UnorderedMap.find_mem _ _ _ hkey
        obtain ⟨object, hobject, hname⟩ := hO.elements_named R node path e hnode hmem
        rw [lastSegment_of_no_separator path hsep]
        exact Or.inr ⟨R, node, e, object, Heap.InSubtree.self, hnode, hmem, hobject, hname,
          rfl⟩
    · -- the path has a first segment
      obtain ⟨hpre, rfl, hp⟩ := stdFind_inv path.data pre rest _ x hfind
      have hrest : (String.mk rest).length < n := by
        have hsmaller := (stdFind_rest_smaller path pre rest _ hfind).1
        omega
      have hlast : lastSegment path = lastSegment (String.mk rest) := by
        have hpath : path = String.mk (pre ++ internal.kNamespaceCharacter :: rest) :=
          String.ext hp
        rw [hpath]
        exact lastSegment_after_separator pre rest
      simp only [hnode]
      rw [hlast]
      split
      · exact ih (String.mk rest) R node hrest hnode
      · simp only [FindChildRegistry, hnode]
        cases hkey : node.child_registries_.find (String.mk pre) with
        | none => exact Or.inl rfl
        | some child =>
          have hmem := UnorderedMap.find_mem _ _ _ hkey
          have hlive := hO.children_live R node _ child hnode hmem
          have hchild : h.registry child = some (h.registries[child]) := by
            simp [Heap.registry, hlive]
          rcases ih (String.mk rest) child _ hrest hchild with
            hnot | ⟨q, holder, e, object, hq, hholder, hentry, hobject, hname, hres⟩
          · exact Or.inl hnot
          · exact Or.inr ⟨q, holder, e, object,
              Heap.InSubtree_of_child h R child q node _ hnode hmem hq, hholder, hentry,
              hobject, hname, hres⟩

/-- A freshly constructed root has empty maps. -/
theorem Heap.root_owned (root_name : String) : (Heap.root root_name).Owned := by
  have hroot : ∀ p r, (Heap.root root_name).registry p = some r →
      r = Registry.new root_name := by
    intro p r hr
    have hmem := List.getElem?_mem hr
    simpa [Heap.root] using hmem
  constructor
  · intro p r key c hr hentry
    obtain rfl := hroot p r hr
    exact absurd hentry (by simp [Registry.new])
  · intro p r key e hr hentry
    obtain rfl := hroot p r hr
    exact absurd hentry (by simp [Registry.new])

/-- The heap after a child was appended to the map of `this` and to the registries. -/
theorem Heap.Owned_add_child (h : Heap) (hO : h.Owned) (this : RegistryPtr)
    (self extra : Registry) (key : String) (hself : h.registry this = some self)
    (hchildren : extra.child_registries_ = []) (helements : extra.elements_ = []) :
    Heap.Owned
      { registries :=
          h.registries.set this
            { self with child_registries_ :=
                self.child_registries_ ++ [(key, h.registries.length)] } ++ [extra]
        elements := h.elements } := by
  constructor
  · intro p r k c hr hentry
    show c < (h.registries.set this _ ++ [extra]).length
    simp only [List.length_append, List.length_set, List.length_singleton]
    rcases getElem?_set_append_origin _ _ _ _ _ _ hr with
      ⟨rfl, rfl⟩ | ⟨-, hold⟩ | ⟨rfl, rfl⟩
    · rcases List.mem_append.mp hentry with hmem | hmem
      · exact Nat.lt_succ_of_lt (hO.children_live p self k c hself hmem)
      · obtain ⟨-, rfl⟩ := Prod.mk.inj (List.mem_singleton.mp hmem)
        exact Nat.lt_succ_self _
    · exact Nat.lt_succ_of_lt (hO.children_live p r k c hold hentry)
    · rw [hchildren] at hentry
      exact absurd hentry (by simp)
  · intro p r k e hr hentry
    rcases getElem?_set_append_origin _ _ _ _ _ _ hr with
      ⟨rfl, rfl⟩ | ⟨-, hold⟩ | ⟨rfl, rfl⟩
    · exact hO.elements_named p self k e hself hentry
    · exact hO.elements_named p r k e hold hentry
    · rw [helements] at hentry
      exact absurd hentry (by simp)

/-- The heap after the element of an element pointer was replaced by one of the same name. -/
theorem Heap.Owned_set_element (h : Heap) (hO : h.Owned) (x : ElementPtr)
    (object object' : Element) (hobject : h.element x = some object)
    (hname : object'.name_ = object.name_) :
    Heap.Owned { h with elements := h.elements.set x object' } := by
  constructor
  · exact hO.children_live
  · intro p r k e hr hentry
    obtain ⟨found, hfound, hkey⟩ := hO.elements_named p r k e hr hentry
    by_cases hx : x = e
    · subst hx
      rw [hobject] at hfound
      obtain rfl := Option.some.inj hfound
      refine ⟨object', ?_, ?_⟩
      · simp only [Heap.element, List.getElem?_set_self (Heap.element_lt hobject)]
      · show object'.name_ = k
        rw [hname]
        exact hkey
    · refine ⟨found, ?_, hkey⟩
      simp only [Heap.element, List.getElem?_set_ne hx]
      exact hfound

/-- Every call keeps the child maps on live registries and the element maps on live elements
under their names. -/
theorem Op_run_owned (h h' : Heap) (op : Op) (hrun : op.run h = some h') (hO : h.Owned) :
    h'.Owned := by
  cases op with
  | AddChildRegistry this name =>
    simp only [Op.run, Option.map_eq_some'] at hrun
    obtain ⟨⟨h'', result⟩, hadd, rfl⟩ := hrun
    obtain ⟨self, hself, ⟨-, rfl, -⟩ | ⟨c, -, rfl, -⟩⟩ :=
      AddChildRegistry_cases h h'' this name result hadd
    · exact Heap.Owned_add_child h hO this self _ _ hself rfl rfl
    · exact hO
  | FindOrAddChildRegistry this name =>
    simp only [Op.run, Option.map_eq_some'] at hrun
    obtain ⟨⟨h'', c⟩, hcall, rfl⟩ := hrun
    obtain ⟨self, hself, ⟨-, rfl⟩ | ⟨-, rfl, -⟩⟩ :=
      FindOrAddChildRegistry_cases h h'' this name c hcall
    · exact hO
    · exact Heap.Owned_add_child h hO this self _ _ hself rfl rfl
  | Add T this name char_value string_value =>
    simp only [Op.run, Option.map_eq_some'] at hrun
    obtain ⟨⟨h'', result⟩, hadd, rfl⟩ := hrun
    rw [Add_eq_AddElementType] at hadd
    obtain ⟨self, hself, ⟨-, rfl, -⟩ | ⟨c, -, rfl, -⟩⟩ :=
      AddElementType_cases h h'' this _ result hadd
    swap
    · exact hO
    have hold : ∀ p r k e, h.registry p = some r → (k, e) ∈ r.elements_ →
        ∃ object, (h.elements ++
          [{ ElementTemplate.mk T name (initialValue T char_value string_value) with
               registry_ := some this }])[e]? = some object ∧ object.name = k := by
      intro p r k e hr hentry
      obtain ⟨object, hobject, hkey⟩ := hO.elements_named p r k e hr hentry
      refine ⟨object, ?_, hkey⟩
      rw [List.getElem?_append_left (Heap.element_lt hobject)]
      exact hobject
    constructor
    · intro p r k c hr hentry
      show c < (h.registries.set this _).length
      rw [List.length_set]
      rcases getElem?_set_cases _ _ _ _ _ hr with ⟨rfl, rfl⟩ | hr'
      · exact hO.children_live p self k c hself hentry
      · exact hO.children_live p r k c hr' hentry
    · intro p r k e hr hentry
      rcases getElem?_set_cases _ _ _ _ _ hr with ⟨rfl, rfl⟩ | hr'
      · rcases List.mem_append.mp hentry with hmem | hmem
        · exact hold p self k e hself hmem
        · obtain ⟨rfl, rfl⟩ := Prod.mk.inj (List.mem_singleton.mp hmem)
          exact ⟨_, List.getElem?_concat_length _ _, rfl⟩
      · exact hold p r k e hr' hentry
  | Assign element other =>
    simp only [Op.run] at hrun
    split at hrun
    · exact absurd hrun (by simp)
    · rename_i object hobject
      simp only [Option.map_eq_some'] at hrun
      obtain ⟨⟨flag, object'⟩, hassign, rfl⟩ := hrun
      exact Heap.Owned_set_element h hO element object object' hobject
        (Element.Assign_keeps object object' other flag hassign).1
  | assignValue element other =>
    simp only [Op.run] at hrun
    split at hrun
    · exact absurd hrun (by simp)
    · rename_i object hobject
      simp only [Option.map_eq_some'] at hrun
      obtain ⟨object', hassign, rfl⟩ := hrun
      exact Heap.Owned_set_element h hO element object object' hobject
        (Element.assignValue_keeps object object' other hassign).1

/-- In a tree built from a freshly constructed root by calls of the public operations, the
child maps hold live registries and the element maps hold live elements under their names. -/
theorem run_root_owned (ops : List Op) (root_name : String) (h : Heap)
    (hrun : run (Heap.root root_name) ops = some h) : h.Owned :=
  run_invariant Heap.Owned (fun _ => True)
    (fun h h' op _ hstep hO => Op_run_owned h h' op hstep hO) ops _ h (fun _ _ => trivial) hrun
    (Heap.root_owned root_name)

/-- C21: in a tree built from a freshly constructed root by calls of the public operations,
for every registry `R` and every path `p`, `R.FindElementByExtendedName(p)` returns, and an
error it returns is `kNotFound`; and if no element of a registry of the subtree of `R` has a
name equal to the last segment of `p`, it fails with `kNotFound`. -/
theorem FindElementByExtendedName_not_found (root_name : String) (ops : List Op) (h : Heap)
    (R : RegistryPtr) (node : Registry) (p : String)
    (hrun : run (Heap.root root_name) ops = some h) (hnode : h.registry R = some node) :
    (∃ result, FindElementByExtendedName h R p = some result ∧
        ∀ err, result = .error err → err = .kNotFound) ∧
      ((∀ q holder key e object, h.InSubtree R q → h.registry q = some holder →
          (key, e) ∈ holder.elements_ → h.element e = some object →
          object.name ≠ lastSegment p) →
        FindElementByExtendedName h R p = some (.error .kNotFound)) := by
  have hO := run_root_owned ops root_name h hrun
  have hout := FindElementByExtendedName_outcome h hO (p.length + 1) p R node
    (Nat.lt_succ_self _) hnode
  constructor
  · rcases hout with hnot | ⟨_, _, e, _, -, -, -, -, -, hres⟩
    · exact ⟨_, hnot, fun err herr => (Except.error.inj herr).symm⟩
    · exact ⟨_, hres, fun err herr => absurd herr (by simp)⟩
  · intro hnone
    rcases hout with hnot | ⟨q, holder, e, object, hq, hholder, hentry, hobject, hname, -⟩
    · exact hnot
    · exact absurd hname (hnone q holder _ e object hq hholder hentry hobject)

/-- C21 on the example of the spec: the root `"app"`, its child `"rpc"` with the element
`"timeout"`, and the path `"rpc.missing"`, whose last segment names no element. -/
theorem FindElementByExtendedName_not_found_witness :
    (∃ result,
        FindElementByExtendedName
          { registries :=
              [{ name_ := "app", parent_ := none, child_registries_ := [("rpc", 1)],
                 elements_ := [] },
               { name_ := "rpc", parent_ := some 0, child_registries_ := [],
                 elements_ := [("timeout", 0)] }]
            elements :=
              [{ name_ := "timeout", type_ := .kDouble, registry_ := some 1,
                 value_ := .double 0 }] }
          0 "rpc.missing" = some result ∧
        ∀ err, result = .error err → err = .kNotFound) ∧
      FindElementByExtendedName
        { registries :=
            [{ name_ := "app", parent_ := none, child_registries_ := [("rpc", 1)],
               elements_ := [] },
             { name_ := "rpc", parent_ := some 0, child_registries_ := [],
               elements_ := [("timeout", 0)] }]
          elements :=
            [{ name_ := "timeout", type_ := .kDouble, registry_ := some 1,
               value_ := .double 0 }] }
        0 "rpc.missing" = some (.error .kNotFound) := by
  have hclaim := FindElementByExtendedName_not_found "app"
    [Op.AddChildRegistry 0 "rpc", Op.Add .double 1 "timeout" 'a' ""]
        { registries :=
            [{ name_ := "app", parent_ := none, child_registries_ := [("rpc", 1)],
               elements_ := [] },
             { name_ := "rpc", parent_ := some 0, child_registries_ := [],
               elements_ := [("timeout", 0)] }]
          elements :=
            [{ name_ := "timeout", type_ := .kDouble, registry_ := some 1,
               value_ := .double 0 }] }
    0
    { name_ := "app", parent_ := none, child_registries_ := [("rpc", 1)], elements_ := [] }
    "rpc.missing" (by decide) (by decide)
  refine ⟨hclaim.1, hclaim.2 ?_⟩
  intro q holder key e object _ _ _ hobject
  have hmem := List.getElem?_mem hobject
  obtain rfl : object =
      { name_ := "timeout", type_ := .kDouble, registry_ := some 1, value_ := .double 0 } := by
    simpa using hmem
  decide

/-- The other example of C21: the last segment of a path that ends in `'.'` is empty, and in
the tree of the spec, which has no element with the empty name, the path `"rpc."` fails with
`kNotFound`. -/
theorem FindElementByExtendedName_trailing_separator_example :
    lastSegment "rpc." = "" ∧ lastSegment "rpc.missing" = "missing" ∧
      lastSegment "timeout" = "timeout" ∧
      FindElementByExtendedName
        { registries :=
            [{ name_ := "app", parent_ := none, child_registries_ := [("rpc", 1)],
               elements_ := [] },
             { name_ := "rpc", parent_ := some 0, child_registries_ := [],
               elements_ := [("timeout", 0)] }]
          elements :=
            [{ name_ := "timeout", type_ := .kDouble, registry_ := some 1,
               value_ := .double 0 }] }
        0 "rpc." = some (.error .kNotFound) := by
  refine ⟨by decide, by decide, by decide, ?_⟩
  rw [FindElementByExtendedName_eq_steps _ 8 _ _ (by decide)]
  decide

end registry
